import Mathlib

/-!
Shallow embedding of the Luxembourg-law MCP core (citation parsing,
validation and formatting; ingestion normalization: provision
deduplication, EU-reference extraction, discovery deduplication,
Akoma Ntoso content assembly), translated from the TypeScript sources:

  * src/src/citation/parser.ts     (parseCitation, parseArticle)
  * src/src/citation/validator.ts  (romanToNumber, provisionCandidates,
                                    validateCitation)
  * the citation formatter         (formatCitation, buildPinpoint)
  * src/scripts/build-db.ts        (normalizeWhitespace, dedupeProvisions,
                                    pickPreferredProvision, parseEuYear,
                                    inferRegulationYearAndNumber,
                                    extractEUReferencesFromText)
  * src/scripts/lib/parser.ts      (extractText, cleanText,
                                    extractArticleNum, normalizeArticleRef,
                                    processArticle)
  * the ingestion pipeline         (discoverLaws URI deduplication)

Strings are modelled by Lean `String` (a wrapper around `List Char`);
the JavaScript regular expressions used by the sources are hand-compiled
into explicit matching functions that reproduce the backtracking
priorities of the JS engine on the relevant patterns.  JavaScript case
conversion (`toLowerCase`/`toUpperCase`) is modelled on the ASCII and
Latin-1 letter ranges, which covers the French legal text repertoire the
program manipulates; SQLite `lower()` is ASCII-only, exactly Lean-s
`Char.toLower`.
-/

/-! ### JavaScript string primitives -/

/-- The whitespace class of JavaScript `\s` (the code points that occur in
practice: ASCII whitespace, NBSP, line/paragraph separators, BOM). -/
def jsIsSpace (c : Char) : Bool :=
  c.val = 32 || c.val = 9 || c.val = 10 || c.val = 13 || c.val = 11 || c.val = 12 ||
  c.val = 0xa0 || c.val = 0x2028 || c.val = 0x2029 || c.val = 0xfeff

/-- JavaScript `\d`. -/
def isDigitChar (c : Char) : Bool := '0' ≤ c && c ≤ '9'

/-- JavaScript `\w` (`[A-Za-z0-9_]`). -/
def isWordChar (c : Char) : Bool :=
  ('a' ≤ c && c ≤ 'z') || ('A' ≤ c && c ≤ 'Z') || isDigitChar c || c = '_'

/-- `String.prototype.toLowerCase` on the ASCII and Latin-1 letter ranges
(`A`-`Z`, `À`-`Þ` except `×`); other characters are returned unchanged. -/
def jsToLower (c : Char) : Char :=
  if 'A' ≤ c && c ≤ 'Z' then Char.ofNat (c.toNat + 32)
  else if 0xc0 ≤ c.val && c.val ≤ 0xde && c.val ≠ 0xd7 then Char.ofNat (c.toNat + 32)
  else c

/-- `String.prototype.toUpperCase` on the same repertoire. -/
def jsToUpper (c : Char) : Char :=
  if 'a' ≤ c && c ≤ 'z' then Char.ofNat (c.toNat - 32)
  else if 0xe0 ≤ c.val && c.val ≤ 0xfe && c.val ≠ 0xf7 then Char.ofNat (c.toNat - 32)
  else c

/-- Case-insensitive character comparison (the `/i` regex flag). -/
def ciEq (a b : Char) : Bool := jsToLower a = jsToLower b

/-- `String.prototype.trim` on a character list. -/
def jsTrimL (l : List Char) : List Char :=
  ((l.dropWhile jsIsSpace).reverse.dropWhile jsIsSpace).reverse

/-- `String.prototype.trim`. -/
def jsTrim (s : String) : String := ⟨jsTrimL s.data⟩

/-- Worker for `collapseWs`; the flag records whether the previous
character belonged to a whitespace run already emitted as one space. -/
def collapseWsGo : Bool → List Char → List Char
  | _, [] => []
  | inRun, c :: rest =>
    if jsIsSpace c then
      if inRun then collapseWsGo true rest else ' ' :: collapseWsGo true rest
    else c :: collapseWsGo false rest

/-- `replace(/\s+/g, ' ')`: collapse every whitespace run to one space. -/
def collapseWs (l : List Char) : List Char := collapseWsGo false l

/-- Drop every whitespace character (`replace(/\s+/g, '')`). -/
def removeWs (l : List Char) : List Char := l.filter (fun c => !jsIsSpace c)

/-- Decimal value of a digit character. -/
def digitVal (c : Char) : Nat := c.toNat - 48

/-- Value of a decimal digit string (most significant first). -/
def digitsToNat (ds : List Char) : Nat := ds.foldl (fun acc c => acc * 10 + digitVal c) 0

/-- Fuel-driven worker for `natDigits` (structural, so that the kernel
can evaluate it; the fuel `n + 1` always suffices since the argument
strictly shrinks under division by ten). -/
def natDigitsAux : Nat → Nat → List Char
  | 0, _ => []
  | fuel + 1, n =>
    if n < 10 then [Char.ofNat (48 + n)]
    else natDigitsAux fuel (n / 10) ++ [Char.ofNat (48 + n % 10)]

/-- Decimal digit list of a natural number, most significant first
(what the JS template interpolation of a non-negative integer prints). -/
def natDigits (n : Nat) : List Char := natDigitsAux (n + 1) n

/-- JS string interpolation of a non-negative integer. -/
def jsNumToString (n : Nat) : String := ⟨natDigits n⟩

/-- `Number.parseInt(raw, 10)` on the non-negative digit tokens the
sources feed it (regex captures `\d{...}`): the value of the leading
digit run, `none` (NaN) when there is none. -/
def jsParseIntNat (s : String) : Option Nat :=
  let ds := s.data.takeWhile isDigitChar
  if ds.isEmpty then none else some (digitsToNat ds)

/-! ### build-db.ts: provision deduplication -/

/-- `ProvisionSeed` of `scripts/build-db.ts` (metadata is carried opaquely). -/
structure ProvisionSeed where
  provision_ref : String
  chapter : Option String
  sectionLabel : String
  title : Option String
  content : String
deriving DecidableEq, Repr

/-- `ProvisionDedupStats` of `scripts/build-db.ts`. -/
structure ProvisionDedupStats where
  duplicate_refs : Nat
  conflicting_duplicates : Nat
deriving DecidableEq, Repr

/-- `normalizeWhitespace` of `scripts/build-db.ts`:
`text.replace(/\s+/g, ' ').trim()`. -/
def normalizeWhitespace (s : String) : String := ⟨jsTrimL (collapseWs s.data)⟩

/-- `pickPreferredProvision` of `scripts/build-db.ts`. -/
def pickPreferredProvision (existing incoming : ProvisionSeed) : ProvisionSeed :=
  let existingContent := normalizeWhitespace existing.content
  let incomingContent := normalizeWhitespace incoming.content
  if existingContent.length < incomingContent.length then
    { incoming with title := incoming.title.orElse (fun _ => existing.title) }
  else
    { existing with title := existing.title.orElse (fun _ => incoming.title) }

/-- A JS `Map` as an insertion-ordered association list; `Map.set` updates
in place or appends. -/
def mapSet (m : List (String × ProvisionSeed)) (k : String) (v : ProvisionSeed) :
    List (String × ProvisionSeed) :=
  match m with
  | [] => [(k, v)]
  | (k0, v0) :: rest => if k0 = k then (k0, v) :: rest else (k0, v0) :: mapSet rest k v

/-- `Map.get`. -/
def mapGet (m : List (String × ProvisionSeed)) (k : String) : Option ProvisionSeed :=
  match m with
  | [] => none
  | (k0, v0) :: rest => if k0 = k then some v0 else mapGet rest k

/-- One iteration of the `for` loop of `dedupeProvisions`: on a ref
collision `duplicate_refs` always increments and `conflicting_duplicates`
increments when the normalized contents differ. -/
def dedupeStep (acc : List (String × ProvisionSeed) × ProvisionDedupStats)
    (provision : ProvisionSeed) : List (String × ProvisionSeed) × ProvisionDedupStats :=
  match mapGet acc.1 (jsTrim provision.provision_ref) with
  | none =>
    (mapSet acc.1 (jsTrim provision.provision_ref)
      { provision with provision_ref := jsTrim provision.provision_ref }, acc.2)
  | some existing =>
    (mapSet acc.1 (jsTrim provision.provision_ref) (pickPreferredProvision existing provision),
     if normalizeWhitespace existing.content ≠ normalizeWhitespace provision.content then
       ⟨acc.2.duplicate_refs + 1, acc.2.conflicting_duplicates + 1⟩
     else ⟨acc.2.duplicate_refs + 1, acc.2.conflicting_duplicates⟩)

/-- `dedupeProvisions` of `scripts/build-db.ts`. -/
def dedupeProvisions (provisions : List ProvisionSeed) :
    List ProvisionSeed × ProvisionDedupStats :=
  let acc := provisions.foldl dedupeStep ([], ⟨0, 0⟩)
  (acc.1.map (·.2), acc.2)

/-! ### build-db.ts: EU year/number inference -/

/-- `EUCommunityValue` of `scripts/build-db.ts`. -/
inductive EUCommunityValue where
  | EU | EG | EEG | Euratom | CE | CEE
deriving DecidableEq, Repr

/-- `normalizeCommunity` of `scripts/build-db.ts`. -/
def normalizeCommunity (raw : String) : EUCommunityValue :=
  match ⟨raw.data.map jsToUpper⟩ with
  | "UE" => .EU
  | "EU" => .EU
  | "EG" => .EG
  | "EEG" => .EEG
  | "EURATOM" => .Euratom
  | "CEE" => .CEE
  | _ => .CE

/-- `parseEuYear` of `scripts/build-db.ts`: two-digit tokens expand with
the pivot at 57; longer tokens must fall in `[1957, 2100]`. -/
def parseEuYear (raw : String) : Option Nat :=
  match jsParseIntNat raw with
  | none => none
  | some parsed =>
    if raw.length = 2 then
      some (if 57 ≤ parsed then 1900 + parsed else 2000 + parsed)
    else if parsed < 1957 || 2100 < parsed then none
    else some parsed

/-- `inferRegulationYearAndNumber` of `scripts/build-db.ts`. -/
def inferRegulationYearAndNumber (community : EUCommunityValue) (first second : String) :
    Option (Nat × Nat) :=
  match jsParseIntNat first, jsParseIntNat second with
  | some a, some b =>
    if a = 0 || b = 0 then none
    else
      let yearFromFirst := parseEuYear first
      let yearFromSecond := parseEuYear second
      let isLegacyCommunity :=
        community = .CE || community = .CEE || community = .EG ||
        community = .EEG || community = .Euratom
      if isLegacyCommunity then
        match yearFromSecond with
        | some y => some (y, a)
        | none =>
          match yearFromFirst with
          | some y => some (y, b)
          | none => none
      else
        match yearFromFirst with
        | some y => some (y, b)
        | none =>
          match yearFromSecond with
          | some y => some (y, a)
          | none => none
  | _, _ => none

/-! ### build-db.ts: EU reference extraction

The two patterns

  `DIRECTIVE_PATTERN  = /\bdirective\b[^\d]{0,48}(\d{2,4})\/(\d{1,4})\/(UE|EU|CE|CEE|EG|EEG|EURATOM)\b/giu`
  `REGULATION_PATTERN = /\br(?:e`|e)glement\b[^\d]{0,48}\((UE|EU|CE|CEE|EG|EEG|EURATOM)\)\s*(?:n[(deg)o]\s*)?(\d{1,4})\/(\d{2,4})\b/giu`

are hand-compiled below.  Backtracking resolves deterministically at the
bounded quantifiers whose continuation rejects every backtracked
position (a shorter `[^\d]{0,48}` gap leaves a non-digit where a digit
is required; a shorter `\d{m,n}` group leaves a digit where `/` or `\b`
is required; a shorter `\s*` leaves whitespace where `n`, `(` or a digit
is required); the one genuinely backtracking point, the gap before `\(`
in the regulation pattern, is compiled as an explicit descending
search. -/

/-- Wordness of an optional character (`\b` context; out-of-string counts
as non-word). -/
def wordness : Option Char → Bool
  | none => false
  | some c => isWordChar c

/-- Case-insensitive literal match, returning the remaining suffix. -/
def ciStrip (pat : List Char) (l : List Char) : Option (List Char) :=
  match pat, l with
  | [], rest => some rest
  | _ :: _, [] => none
  | p :: ps, c :: cs => if ciEq c p then ciStrip ps cs else none

/-- Greedy `(\d{lo,hi})` whose continuation rejects a digit: only the
maximal in-range digit run can succeed. -/
def digitGroup (lo hi : Nat) (l : List Char) : Option (List Char × List Char) :=
  let ds := l.takeWhile isDigitChar
  if lo ≤ ds.length && ds.length ≤ hi then some (ds, l.drop ds.length)
  else none

/-- Greedy `[^\d]{0,48}` whose continuation starts with `\d`: skip the
whole non-digit run when it fits the bound, fail otherwise. -/
def dirGap (l : List Char) : Option (List Char) :=
  let run := l.takeWhile (fun c => !isDigitChar c)
  if run.length ≤ 48 then some (l.drop run.length) else none

/-- The community alternation, in source order. -/
def euCommunityAlts : List (List Char) :=
  [['U','E'], ['E','U'], ['C','E'], ['C','E','E'], ['E','G'], ['E','E','G'],
   ['E','U','R','A','T','O','M']]

/-- A raw regex match: the three captures (in group order) and the full
matched text `match[0]`. -/
structure EUMatchRaw where
  g1 : List Char
  g2 : List Char
  g3 : List Char
  matched : List Char
deriving DecidableEq, Repr

/-- `(UE|...|EURATOM)\b` at the end of the directive pattern: try the
alternatives in order, each guarded by the trailing boundary. -/
def dirCommLoop : List (List Char) → List Char → Option (List Char × List Char)
  | [], _ => none
  | a :: alts, l =>
    match ciStrip a l with
    | some r =>
      if wordness r.head? then dirCommLoop alts l
      else some (l.take a.length, r)
    | none => dirCommLoop alts l

/-- Attempt of `DIRECTIVE_PATTERN` anchored at the current position
(`prev` is the character just before it, for `\b`). -/
def dirMatchHere (prev : Option Char) (l : List Char) :
    Option (EUMatchRaw × Option Char × List Char) :=
  match ciStrip ['d','i','r','e','c','t','i','v','e'] l with
  | none => none
  | some r1 =>
    -- leading `\b`: the next character is `d`, a word character
    if wordness prev then none
    -- trailing `\b` after `directive`
    else if wordness r1.head? then none
    else
      match dirGap r1 with
      | none => none
      | some r2 =>
        match digitGroup 2 4 r2 with
        | none => none
        | some (g1, r3) =>
          match r3 with
          | '/' :: r4 =>
            (match digitGroup 1 4 r4 with
             | none => none
             | some (g2, r5) =>
               match r5 with
               | '/' :: r6 =>
                 (match dirCommLoop euCommunityAlts r6 with
                  | none => none
                  | some (g3, r7) =>
                    let matched := l.take (l.length - r7.length)
                    some (⟨g1, g2, g3, matched⟩, matched.getLast?, r7))
               | _ => none)
          | _ => none

/-- `\s*(?:n[°o]\s*)?(\d{1,4})\/(\d{2,4})\b` after the closing paren of
the regulation pattern. -/
def regNumTail (l : List Char) : Option (List Char × List Char × List Char) :=
  let l1 := l.dropWhile jsIsSpace
  let start :=
    match l1 with
    | c :: d :: rest2 =>
      if ciEq c 'n' && (d = '°' || ciEq d 'o') then rest2.dropWhile jsIsSpace else l1
    | _ => l1
  match digitGroup 1 4 start with
  | none => none
  | some (g2, r) =>
    match r with
    | '/' :: r2 =>
      (match digitGroup 2 4 r2 with
       | none => none
       | some (g3, r3) => if wordness r3.head? then none else some (g2, g3, r3))
    | _ => none

/-- One community alternative of `\((UE|...)\)` plus the whole tail. -/
def regAltTry (a : List Char) (l : List Char) :
    Option (List Char × List Char × List Char × List Char) :=
  match ciStrip a l with
  | none => none
  | some r =>
    match r with
    | ')' :: r2 =>
      (match regNumTail r2 with
       | none => none
       | some (g2, g3, rest) => some (l.take a.length, g2, g3, rest))
    | _ => none

/-- The community alternation of the regulation pattern, backtracking
into later alternatives when the tail fails. -/
def regCommLoop : List (List Char) → List Char →
    Option (List Char × List Char × List Char × List Char)
  | [], _ => none
  | a :: alts, l =>
    match regAltTry a l with
    | some x => some x
    | none => regCommLoop alts l

/-- One gap length for the regulation pattern: `\(` must sit right after
the gap, then the community and the numeric tail follow. -/
def regGapAttempt (l : List Char) (k : Nat) :
    Option (List Char × List Char × List Char × List Char) :=
  match l.drop k with
  | '(' :: r => regCommLoop euCommunityAlts r
  | _ => none

/-- Descending search for the gap length before `\(` in the regulation
pattern: the regex engine prefers the longest gap. -/
def regGapLoop (l : List Char) : Nat →
    Option (List Char × List Char × List Char × List Char)
  | 0 => regGapAttempt l 0
  | k + 1 =>
    match regGapAttempt l (k + 1) with
    | some x => some x
    | none => regGapLoop l k

/-- Attempt of `REGULATION_PATTERN` anchored at the current position. -/
def regMatchHere (prev : Option Char) (l : List Char) :
    Option (EUMatchRaw × Option Char × List Char) :=
  match l with
  | [] => none
  | c :: rest =>
    if !ciEq c 'r' then none
    else if wordness prev then none  -- leading `\b` before the word char `r`
    else
      -- `(?:è|e)` then the literal `glement`
      let afterKw : Option (List Char) :=
        match rest with
        | c2 :: rest2 =>
          if ciEq c2 'è' || ciEq c2 'e' then
            ciStrip ['g','l','e','m','e','n','t'] rest2
          else none
        | [] => none
      match afterKw with
      | none => none
      | some r1 =>
        -- trailing `\b` after `...ment`
        if wordness r1.head? then none
        else
          let kmax := min 48 (r1.takeWhile (fun ch => !isDigitChar ch)).length
          match regGapLoop r1 kmax with
          | none => none
          | some (g1, g2, g3, r2) =>
            let matched := l.take (l.length - r2.length)
            some (⟨g1, g2, g3, matched⟩, matched.getLast?, r2)

/-- `String.prototype.matchAll` over one of the two patterns: scan left
to right, resuming after each (never empty) match. -/
def euScan (mh : Option Char → List Char → Option (EUMatchRaw × Option Char × List Char)) :
    Nat → Option Char → List Char → List EUMatchRaw
  | 0, _, _ => []
  | _ + 1, _, [] => []
  | fuel + 1, prev, c :: rest =>
    match mh prev (c :: rest) with
    | some (m, prev2, rest2) => m :: euScan mh fuel prev2 rest2
    | none => euScan mh fuel (some c) rest

/-- `ExtractedEUReference` of `scripts/build-db.ts`. -/
structure ExtractedEUReference where
  eu_document_id : String
  type : String
  year : Nat
  number : Nat
  community : EUCommunityValue
  full_citation : String
deriving DecidableEq, Repr

/-- `normalizeCitation` of `scripts/build-db.ts`. -/
def normalizeCitation (s : String) : String := ⟨jsTrimL (collapseWs s.data)⟩

/-- Directive branch of the extraction loop (the `continue` guards
become `none`). -/
def dirRefOfMatch (m : EUMatchRaw) : Option ExtractedEUReference :=
  match parseEuYear ⟨m.g1⟩ with
  | none => none
  | some year =>
    match jsParseIntNat ⟨m.g2⟩ with
    | none => none
    | some number =>
      if number = 0 then none
      else some
        { eu_document_id := "directive:" ++ jsNumToString year ++ "/" ++ jsNumToString number
          type := "directive"
          year := year
          number := number
          community := normalizeCommunity ⟨m.g3⟩
          full_citation := normalizeCitation ⟨m.matched⟩ }

/-- Regulation branch of the extraction loop. -/
def regRefOfMatch (m : EUMatchRaw) : Option ExtractedEUReference :=
  let community := normalizeCommunity ⟨m.g1⟩
  match inferRegulationYearAndNumber community ⟨m.g2⟩ ⟨m.g3⟩ with
  | none => none
  | some yn => some
      { eu_document_id := "regulation:" ++ jsNumToString yn.1 ++ "/" ++ jsNumToString yn.2
        type := "regulation"
        year := yn.1
        number := yn.2
        community := community
        full_citation := normalizeCitation ⟨m.matched⟩ }

/-- The final `unique` map of `extractEUReferencesFromText`: keep the
first reference per synthetic id. -/
def dedupeEuRefsAux (seen : List String) : List ExtractedEUReference → List ExtractedEUReference
  | [] => []
  | r :: rest =>
    if r.eu_document_id ∈ seen then dedupeEuRefsAux seen rest
    else r :: dedupeEuRefsAux (r.eu_document_id :: seen) rest

/-- `extractEUReferencesFromText` of `scripts/build-db.ts`. -/
def extractEUReferencesFromText (text : String) : List ExtractedEUReference :=
  let dirs := (euScan dirMatchHere (text.data.length + 1) none text.data).filterMap dirRefOfMatch
  let regs := (euScan regMatchHere (text.data.length + 1) none text.data).filterMap regRefOfMatch
  dedupeEuRefsAux [] (dirs ++ regs)

/-! ### Ingestion pipeline: discovery deduplication -/

/-- `LawIndexEntry` of the ingestion pipeline. -/
structure LawIndexEntry where
  uri : String
  date : String
  title : String
  typeDocument : String
  xmlUrl : String
deriving DecidableEq, Repr

/-- The URI deduplication of `discoverLaws`: `allEntries.filter` with a
growing `seen` set, keeping an entry iff its URI was not seen before. -/
def dedupeByUriAux (seen : List String) : List LawIndexEntry → List LawIndexEntry
  | [] => []
  | e :: rest =>
    if e.uri ∈ seen then dedupeByUriAux seen rest
    else e :: dedupeByUriAux (e.uri :: seen) rest

/-- URI deduplication of `discoverLaws` over the collected entries. -/
def dedupeByUri (entries : List LawIndexEntry) : List LawIndexEntry :=
  dedupeByUriAux [] entries

/-! ### citation/parser.ts: the citation grammar

The four patterns

  `LUXEMBOURG_ARTICLE = /^(?<title>.+?)(?:,\s*|\s+)(?:article|art\.?)\s*(?<article>[a-z0-9().\-]+)$/i`
  `FULL_CITATION  = /^(?:Section|s\.?)\s+(\d+(?:\(\d+\))*(?:\([a-z]\))*)\s*,?\s+(.+?)\s+(\d{4})$/i`
  `SHORT_CITATION = /^s\.?\s+(\d+(?:\(\d+\))*(?:\([a-z]\))*)\s+([A-Z][A-Z0-9&\s]*?)\s+(\d{4})$/`
  `SECTION_REF    = /^(\d+)(?:\((\d+)\))?(?:\(([a-z])\))?$/`

are hand-compiled with the JS engine priorities: lazy groups grow from
the shortest candidate, greedy bounded pieces shrink from the longest,
alternatives are tried in source order, and every choice point
backtracks into the rest of the pattern.  Choice points whose every
backtracked continuation is refuted by the very next character class are
compiled to their unique surviving choice. -/

/-- What JS `.` (without the `s` flag) matches: anything but a line
terminator. -/
def isDotChar (c : Char) : Bool :=
  !(c = '\n' || c = '\r' || c.val = 0x2028 || c.val = 0x2029)

/-- The article-token class `[a-z0-9().\-]` under `/i`. -/
def articleClassChar (c : Char) : Bool :=
  ('a' ≤ c && c ≤ 'z') || ('A' ≤ c && c ≤ 'Z') || isDigitChar c ||
  c = '(' || c = ')' || c = '.' || c = '-'

/-- Ordered descending search `f n, f (n-1), ..., f 0`, first success
wins (greedy backtracking order). -/
def downTries (f : Nat → Option α) : Nat → Option α
  | 0 => f 0
  | k + 1 =>
    match f (k + 1) with
    | some x => some x
    | none => downTries f k

/-- `\s*(?<article>[a-z0-9().\-]+)$` after the article keyword: the
class excludes whitespace, so the greedy `\s*` resolves to the whole
whitespace run and the token must cover the entire remainder. -/
def luxKwTail (l : List Char) : Option (List Char) :=
  let g := l.dropWhile jsIsSpace
  if g.isEmpty then none
  else if g.all articleClassChar then some g else none

/-- The `art\.?` part of the keyword alternation: greedy optional dot,
falling back to the dotless reading when the rest fails. -/
def luxKwArt (r : List Char) : Option (List Char) :=
  match r with
  | '.' :: r2 =>
    (match luxKwTail r2 with
     | some g => some g
     | none => luxKwTail r)
  | _ => luxKwTail r

/-- `(?:article|art\.?)` followed by `luxKwTail`, with the source-order
alternation and the greedy optional dot. -/
def luxKw (l : List Char) : Option (List Char) :=
  match (match ciStrip ['a','r','t','i','c','l','e'] l with
         | some r => luxKwTail r
         | none => none) with
  | some g => some g
  | none =>
    match ciStrip ['a','r','t'] l with
    | some r => luxKwArt r
    | none => none

/-- The `,\s*` separator branch. -/
def luxTailComma (l : List Char) : Option (List Char) :=
  match l with
  | ',' :: r => downTries (fun k => luxKw (r.drop k)) (r.takeWhile jsIsSpace).length
  | _ => none

/-- `(?:,\s*|\s+)` then keyword and tail; the inner `\s*`/`\s+` lengths
are searched greedily. -/
def luxTail (l : List Char) : Option (List Char) :=
  match luxTailComma l with
  | some g => some g
  | none =>
    match (l.takeWhile jsIsSpace).length with
    | 0 => none
    | w + 1 => downTries (fun j => luxKw (l.drop (j + 1))) w

/-- Lazy title search of `LUXEMBOURG_ARTICLE`: titles are tried from the
shortest; a line terminator stops the search for good (`.` cannot cross
it). -/
def luxGo (ttl : List Char) : List Char → Option (List Char × List Char)
  | [] => none
  | c :: rest =>
    if !isDotChar c then none
    else
      match luxTail rest with
      | some g => some (ttl ++ [c], g)
      | none => luxGo (ttl ++ [c]) rest

/-- `LUXEMBOURG_ARTICLE` as a whole: title and article captures. -/
def matchLux (l : List Char) : Option (List Char × List Char) := luxGo [] l

/-- `/\b(\d{4})\b/` search (the opportunistic year inside a title). -/
def findYear4Go (prev : Option Char) : List Char → Option (List Char)
  | [] => none
  | c :: rest =>
    let l := c :: rest
    let four := l.take 4
    if !wordness prev && four.length = 4 && four.all isDigitChar &&
        !wordness (l.drop 4).head? then
      some four
    else findYear4Go (some c) rest

/-- `(?:\(([a-z])\))?$` of `SECTION_REF` (case-sensitive). -/
def sectionRefTail (r : List Char) : Option (Option Char) :=
  match r with
  | [] => some none
  | '(' :: c :: ')' :: r2 =>
    if ('a' ≤ c && c ≤ 'z') && r2.isEmpty then some (some c) else none
  | _ => none

/-- `(?:\((\d+)\))?` of `SECTION_REF`, preferred present. -/
def matchSectionRefG2 (rest : List Char) : Option (List Char × List Char) :=
  match rest with
  | '(' :: r =>
    if (r.takeWhile isDigitChar).isEmpty then none
    else
      match r.drop (r.takeWhile isDigitChar).length with
      | ')' :: r2 => some (r.takeWhile isDigitChar, r2)
      | _ => none
  | _ => none

/-- The characters a parenthesised subsection group contributes to the
section reference it was cut from. -/
def subPartL : Option (List Char) → List Char
  | some g => '(' :: (g ++ [')'])
  | none => []

/-- The characters a parenthesised paragraph group contributes to the
section reference it was cut from. -/
def paraPartL : Option Char → List Char
  | some c => ['(', c, ')']
  | none => []

/-- `SECTION_REF`: digits, optional parenthesised subsection digits,
optional parenthesised paragraph letter, anchored both ends; a consumed
subsection group is retried absent when the tail fails. -/
def matchSectionRef (l : List Char) : Option (List Char × Option (List Char) × Option Char) :=
  if (l.takeWhile isDigitChar).isEmpty then none
  else
    match matchSectionRefG2 (l.drop (l.takeWhile isDigitChar).length) with
    | some (g2, r2) =>
      (match sectionRefTail r2 with
       | some p => some (l.takeWhile isDigitChar, some g2, p)
       | none =>
         match sectionRefTail (l.drop (l.takeWhile isDigitChar).length) with
         | some p => some (l.takeWhile isDigitChar, none, p)
         | none => none)
    | none =>
      match sectionRefTail (l.drop (l.takeWhile isDigitChar).length) with
      | some p => some (l.takeWhile isDigitChar, none, p)
      | none => none

/-- `replace(/^art(?:icle)?\.?\s*/i, '')`: every piece after the literal
`art` is optional and greedy, and nothing in the pattern follows, so the
strip is a one-pass greedy scan. -/
def stripArtDot (l : List Char) : List Char :=
  match ciStrip ['a','r','t'] l with
  | none => l
  | some r =>
    let r1 :=
      match ciStrip ['i','c','l','e'] r with
      | some x => x
      | none => r
    let r2 :=
      match r1 with
      | '.' :: x => x
      | _ => r1
    r2.dropWhile jsIsSpace

/-- `ParsedCitation` of `src/types`. -/
structure ParsedCitation where
  valid : Bool
  type : String
  title : Option String := none
  year : Option Nat := none
  «section» : Option String := none
  subsection : Option String := none
  paragraph : Option String := none
  error : Option String := none
deriving DecidableEq, Repr

/-- `parseArticle` of `src/src/citation/parser.ts`. -/
def parseArticle (sectionStr : String) (title : String) (year : Option Nat)
    (type_ : String) : ParsedCitation :=
  let normalizedSection : String := ⟨jsTrimL (stripArtDot sectionStr.data)⟩
  match matchSectionRef normalizedSection.data with
  | none =>
    { valid := true, type := type_, title := some (jsTrim title), year := year,
      «section» := some normalizedSection }
  | some (d, sub, para) =>
    { valid := true, type := type_, title := some (jsTrim title), year := year,
      «section» := some ⟨d⟩, subsection := sub.map (fun x => (⟨x⟩ : String)),
      paragraph := para.map (fun c => (⟨[c]⟩ : String)) }

/-- `\s+(\d{4})$`: greedy whitespace then exactly four digits to the
end; a shorter whitespace run leaves whitespace where a digit is
required, so only the maximal run can succeed. -/
def wsYearEnd (r : List Char) : Option (List Char) :=
  let w := (r.takeWhile jsIsSpace).length
  let tail := r.drop w
  if 1 ≤ w && tail.length = 4 && tail.all isDigitChar then some tail else none

/-- Lazy `(.+?)\s+(\d{4})$` search: titles grow from one character. -/
def titleYearGo (ttl : List Char) : List Char → Option (List Char × List Char)
  | [] => none
  | c :: rest =>
    if !isDotChar c then none
    else
      match wsYearEnd rest with
      | some y => some (ttl ++ [c], y)
      | none => titleYearGo (ttl ++ [c]) rest

/-- Fuel-driven worker for `starParenDigits` (structural for kernel
evaluation; each iteration consumes at least one character, so fuel
`l.length + 1` suffices). -/
def starParenDigitsAux : Nat → List Char → List Char × List Char
  | 0, l => ([], l)
  | fuel + 1, l =>
    match l with
    | '(' :: r =>
      let ds := r.takeWhile isDigitChar
      if ds.isEmpty then ([], l)
      else
        match r.drop ds.length with
        | ')' :: r2 =>
          let p := starParenDigitsAux fuel r2
          ('(' :: (ds ++ ')' :: p.1), p.2)
        | _ => ([], l)
    | _ => ([], l)

/-- `(?:\(\d+\))*` greedy star of parenthesised digit groups. -/
def starParenDigits (l : List Char) : List Char × List Char :=
  starParenDigitsAux (l.length + 1) l

/-- `(?:\(x\))*` greedy star of parenthesised single characters drawn
from `letterOk`. -/
def starParenLetter (letterOk : Char → Bool) : List Char → List Char × List Char
  | '(' :: c :: ')' :: rest =>
    if letterOk c then
      let (cs, r) := starParenLetter letterOk rest
      ('(' :: c :: ')' :: cs, r)
    else ([], '(' :: c :: ')' :: rest)
  | l => ([], l)

/-- The numbered-section capture `(\d+(?:\(\d+\))*(?:\([a-z]\))*)` of the
Full/Short patterns; `letterOk` reflects the `/i` flag of the pattern.
The stars are greedy: a dropped iteration leaves `(` where the following
separator requires whitespace or a comma. -/
def g1Group (letterOk : Char → Bool) (l : List Char) : Option (List Char × List Char) :=
  let d := l.takeWhile isDigitChar
  if d.isEmpty then none
  else
    let r0 := l.drop d.length
    let (c1, r1) := starParenDigits r0
    let (c2, r2) := starParenLetter letterOk r1
    some (d ++ c1 ++ c2, r2)

/-- `\s+(.+?)\s+(\d{4})$` with greedy `\s+` (longest run first, the lazy
title search nested inside each choice). -/
def wsThenTitleYear (r : List Char) : Option (List Char × List Char) :=
  match (r.takeWhile jsIsSpace).length with
  | 0 => none
  | w + 1 => downTries (fun j => titleYearGo [] (r.drop (j + 1))) w

/-- `\s*,?\s+(.+?)\s+(\d{4})$` of `FULL_CITATION`: the outer `\s*` is
searched greedily, the optional comma is preferred present. -/
def fullSepTitleYear (l : List Char) : Option (List Char × List Char) :=
  downTries
    (fun k1 =>
      let r1 := l.drop k1
      let withComma :=
        match r1 with
        | ',' :: r2 => wsThenTitleYear r2
        | _ => none
      match withComma with
      | some x => some x
      | none => wsThenTitleYear r1)
    (l.takeWhile jsIsSpace).length

/-- Everything of `FULL_CITATION` after the section keyword: `\s+` (the
following capture starts with a digit, so the run is fixed), the
numbered section, then separator, title and year. -/
def fullAfterKw (r : List Char) : Option (List Char × List Char × List Char) :=
  let w := (r.takeWhile jsIsSpace).length
  if w = 0 then none
  else
    match g1Group (fun c => ('a' ≤ c && c ≤ 'z') || ('A' ≤ c && c ≤ 'Z')) (r.drop w) with
    | none => none
    | some (g1, r2) =>
      match fullSepTitleYear r2 with
      | some (t, y) => some (g1, t, y)
      | none => none

/-- `FULL_CITATION`: `(?:Section|s\.?)` alternation in source order with
full backtracking into the remainder. -/
def matchFull (l : List Char) : Option (List Char × List Char × List Char) :=
  let viaSection :=
    match ciStrip ['s','e','c','t','i','o','n'] l with
    | some r => fullAfterKw r
    | none => none
  match viaSection with
  | some x => some x
  | none =>
    match l with
    | c :: r =>
      if ciEq c 's' then
        match r with
        | '.' :: r2 =>
          (match fullAfterKw r2 with
           | some x => some x
           | none => fullAfterKw r)
        | _ => fullAfterKw r
      else none
    | [] => none

/-- The lazy acronym search `([A-Z][A-Z0-9&\s]*?)\s+(\d{4})$` of
`SHORT_CITATION` (case-sensitive). -/
def acroGo (acc : List Char) : List Char → Option (List Char × List Char)
  | [] => none
  | c :: rest =>
    match wsYearEnd (c :: rest) with
    | some y => some (acc, y)
    | none =>
      if ('A' ≤ c && c ≤ 'Z') || isDigitChar c || c = '&' || jsIsSpace c then
        acroGo (acc ++ [c]) rest
      else none

/-- `SHORT_CITATION` after its numbered section: `\s+` then the acronym
whose first character must be `[A-Z]`. -/
def shortAfterG1 (r : List Char) : Option (List Char × List Char) :=
  let w := (r.takeWhile jsIsSpace).length
  if w = 0 then none
  else
    match r.drop w with
    | c :: rest => if 'A' ≤ c && c ≤ 'Z' then acroGo [c] rest else none
    | [] => none

/-- Everything of `SHORT_CITATION` after `s\.?`. -/
def shortAfterKw (r : List Char) : Option (List Char × List Char × List Char) :=
  let w := (r.takeWhile jsIsSpace).length
  if w = 0 then none
  else
    match g1Group (fun c => 'a' ≤ c && c ≤ 'z') (r.drop w) with
    | none => none
    | some (g1, r2) =>
      match shortAfterG1 r2 with
      | some (t, y) => some (g1, t, y)
      | none => none

/-- `SHORT_CITATION` (no `/i`: the keyword is a literal lowercase `s`). -/
def matchShort (l : List Char) : Option (List Char × List Char × List Char) :=
  match l with
  | 's' :: r =>
    (match r with
     | '.' :: r2 =>
       (match shortAfterKw r2 with
        | some x => some x
        | none => shortAfterKw r)
     | _ => shortAfterKw r)
  | _ => none

/-- The Full/Short fallback chain of `parseCitation`. -/
def parseCitationRest (trimmed : List Char) : ParsedCitation :=
  match matchFull trimmed with
  | some (g1, t, y) => parseArticle ⟨g1⟩ ⟨t⟩ (some (digitsToNat y)) "statute"
  | none =>
    match matchShort trimmed with
    | some (g1, t, y) => parseArticle ⟨g1⟩ ⟨t⟩ (some (digitsToNat y)) "statute"
    | none =>
      { valid := false, type := "unknown",
        error := some ("Could not parse legal citation: \"" ++ (⟨trimmed⟩ : String) ++ "\"") }

/-- `parseCitation` of `src/src/citation/parser.ts`. -/
def parseCitation (citation : String) : ParsedCitation :=
  let trimmed := (jsTrim citation).data
  match matchLux trimmed with
  | some (titleRaw, articleRaw) =>
    let title := jsTrimL titleRaw
    let article := jsTrimL articleRaw
    let year := (findYear4Go none title).map digitsToNat
    if !title.isEmpty && !article.isEmpty then
      parseArticle ⟨article⟩ ⟨title⟩ year "statute"
    else parseCitationRest trimmed
  | none => parseCitationRest trimmed

/-! ### citation/validator.ts -/

/-- Value of a Roman letter (`map[...]` of `romanToNumber`; 0 plays the
role of a missing entry, excluded by the guard regex). -/
def romanCharVal (c : Char) : Int :=
  if c = 'I' then 1 else if c = 'V' then 5 else if c = 'X' then 10
  else if c = 'L' then 50 else if c = 'C' then 100 else if c = 'D' then 500
  else if c = 'M' then 1000 else 0

/-- The accumulation loop of `romanToNumber`: a letter strictly smaller
than its successor is subtracted. -/
def romanGo : List Char → Int
  | [] => 0
  | c :: rest =>
    let current := romanCharVal c
    (match rest.head? with
     | some c2 => if current < romanCharVal c2 then -current else current
     | none => current) + romanGo rest

/-- `romanToNumber` of `src/src/citation/validator.ts`. -/
def romanToNumber (value : String) : Option Int :=
  let normalized := value.data.map jsToUpper
  if normalized.isEmpty ||
      !normalized.all (fun c => c = 'I' || c = 'V' || c = 'X' || c = 'L' ||
        c = 'C' || c = 'D' || c = 'M') then
    none
  else some (romanGo normalized)

/-- JS `String(n)` on an integer. -/
def jsIntToString (i : Int) : String :=
  if i < 0 then "-" ++ jsNumToString i.natAbs else jsNumToString i.natAbs

/-- `Set.add` keeping insertion order. -/
def insertUnique (l : List String) (s : String) : List String :=
  if s ∈ l then l else l ++ [s]

/-- `replace(/[.,;:!?]+$/g, '')`. -/
def stripTrailingPunct (l : List Char) : List Char :=
  (l.reverse.dropWhile (fun c =>
    c = '.' || c = ',' || c = ';' || c = ':' || c = '!' || c = '?')).reverse

/-- `replace(/er$/i, '')`. -/
def stripErSuffix (l : List Char) : List Char :=
  match l.reverse with
  | r :: e :: rest => if ciEq e 'e' && ciEq r 'r' then rest.reverse else l
  | _ => l

/-- `provisionCandidates` of `src/src/citation/validator.ts`. -/
def provisionCandidates (sec : Option String) : List String :=
  match sec with
  | none => []
  | some s =>
    let cleaned := removeWs (stripArtDot ((jsTrimL s.data).map jsToLower))
    if cleaned.isEmpty then []
    else
      let normalized := stripTrailingPunct cleaned
      let c1 := insertUnique (insertUnique [] ⟨normalized⟩) ("art" ++ (⟨normalized⟩ : String))
      let romanLike := stripErSuffix (normalized.filter (fun c => c ≠ '.'))
      let c2 :=
        match romanToNumber ⟨romanLike⟩ with
        | some n => insertUnique (insertUnique c1 (jsIntToString n)) ("art" ++ jsIntToString n)
        | none => c1
      match normalized.takeWhile isDigitChar with
      | [] => c2
      | ds => insertUnique (insertUnique c2 ⟨ds⟩) ("art" ++ (⟨ds⟩ : String))

/-- A row of `legal_documents` (the columns the validator reads). -/
structure DocumentRow where
  id : String
  title : String
  status : String
  issued_date : Option String
deriving DecidableEq, Repr

/-- A row of `legal_provisions` (the columns the validator reads). -/
structure ProvisionRow where
  document_id : String
  provision_ref : String
  sectionLabel : String
deriving DecidableEq, Repr

/-- The SQLite store as the validator sees it. -/
structure LegalDatabase where
  documents : List DocumentRow
  provisions : List ProvisionRow
deriving Repr

/-- SQLite `lower()` (ASCII only). -/
def sqlLower (s : String) : String := ⟨s.data.map Char.toLower⟩

/-- JS `toLowerCase` lifted to strings. -/
def jsLowerStr (s : String) : String := ⟨s.data.map jsToLower⟩

/-- Contiguous-prefix test. -/
def listStartsWith : List Char → List Char → Bool
  | [], _ => true
  | _ :: _, [] => false
  | a :: as, b :: bs => a = b && listStartsWith as bs

/-- Contiguous-substring test. -/
def listHasInfix (h n : List Char) : Bool :=
  if listStartsWith n h then true
  else
    match h with
    | [] => false
    | _ :: t => listHasInfix t n

/-- `hay LIKE '%pat%'` (ASCII-case-insensitive, as SQLite LIKE; the
patterns the validator builds contain no user wildcards). -/
def likeContainsCI (hay pat : String) : Bool :=
  listHasInfix (hay.data.map Char.toLower) (pat.data.map Char.toLower)

/-- `hay LIKE 'pat%'`. -/
def likeStartsCI (hay pat : String) : Bool :=
  listStartsWith (pat.data.map Char.toLower) (hay.data.map Char.toLower)

/-- Strict lexicographic order on a pair of sort keys. -/
def keyLt (a b : Nat × Nat) : Bool := a.1 < b.1 || (a.1 = b.1 && a.2 < b.2)

/-- `ORDER BY key LIMIT 1` over a filtered row list (ties keep the first
row in table order, one refinement of the order SQLite leaves
unspecified). -/
def selectMinBy (docs : List DocumentRow) (key : DocumentRow → Nat × Nat) :
    Option DocumentRow :=
  docs.foldl
    (fun best d =>
      match best with
      | none => some d
      | some b => if keyLt (key d) (key b) then some d else best)
    none

/-- The title query of `validateCitation`: case-insensitive containment,
exact matches first, then shortest title. -/
def queryDocByTitle (db : LegalDatabase) (t : String) : Option DocumentRow :=
  selectMinBy (db.documents.filter (fun d => likeContainsCI d.title t))
    (fun d => ((if sqlLower d.title = sqlLower t then 0 else 1), d.title.length))

/-- The year query of `validateCitation`: issued-date prefix or title
containment, shortest title first. -/
def queryDocByYear (db : LegalDatabase) (y : Nat) : Option DocumentRow :=
  selectMinBy
    (db.documents.filter (fun d =>
      (match d.issued_date with
       | some dt => likeStartsCI dt (jsNumToString y)
       | none => false) ||
      likeContainsCI d.title (jsNumToString y)))
    (fun d => (0, d.title.length))

/-- Whether a provision row matches one candidate ref string
(`lower(provision_ref) = ? OR lower(section) = ?`). -/
def provisionRowMatches (p : ProvisionRow) (c : String) : Bool :=
  sqlLower p.provision_ref = jsLowerStr c || sqlLower p.sectionLabel = jsLowerStr c

/-- The joined fallback query of `validateCitation`: a document matching
the year that owns a provision matching the candidate. -/
def queryDocByYearAndRef (db : LegalDatabase) (y : Nat) (c : String) :
    Option DocumentRow :=
  db.documents.findSome? (fun d =>
    if ((match d.issued_date with
         | some dt => likeStartsCI dt (jsNumToString y)
         | none => false) ||
        likeContainsCI d.title (jsNumToString y)) &&
       db.provisions.any (fun p => p.document_id = d.id && provisionRowMatches p c) then
      some d
    else none)

/-- The document-resolution cascade of `validateCitation` (steps guarded
by JS truthiness of `title`, `year`, `section`). -/
def resolveDocument (db : LegalDatabase) (parsed : ParsedCitation) : Option DocumentRow :=
  let d1 :=
    match parsed.title with
    | some t => if t.isEmpty then none else queryDocByTitle db t
    | none => none
  match d1 with
  | some d => some d
  | none =>
    let d2 :=
      match parsed.year with
      | some y => if y = 0 then none else queryDocByYear db y
      | none => none
    match d2 with
    | some d => some d
    | none =>
      match parsed.«section», parsed.year with
      | some s, some y =>
        if s.isEmpty || y = 0 then none
        else (provisionCandidates (some s)).findSome? (fun c => queryDocByYearAndRef db y c)
      | _, _ => none

/-- `ValidationResult` of `src/types`. -/
structure ValidationResult where
  citation : ParsedCitation
  document_exists : Bool
  provision_exists : Bool
  document_title : Option String := none
  status : Option String := none
  warnings : List String
deriving DecidableEq, Repr

/-- `validateCitation` of `src/src/citation/validator.ts`. -/
def validateCitation (db : LegalDatabase) (citation : String) : ValidationResult :=
  let parsed := parseCitation citation
  if parsed.valid = false then
    { citation := parsed, document_exists := false, provision_exists := false,
      warnings := [parsed.error.getD "Invalid citation format"] }
  else
    match resolveDocument db parsed with
    | none =>
      { citation := parsed, document_exists := false, provision_exists := false,
        warnings := [jsTrim ("Document \"" ++ parsed.title.getD "unknown" ++ " " ++
          (match parsed.year with | some y => jsNumToString y | none => "") ++
          "\" not found in database")] }
    | some doc =>
      let warnings0 := if doc.status = "repealed" then ["This statute has been repealed"] else []
      let checked :=
        match parsed.«section» with
        | some s =>
          if s.isEmpty then (false, warnings0)
          else
            let cands := provisionCandidates (some s)
            let ex := cands.any (fun c =>
              db.provisions.any (fun p => p.document_id = doc.id && provisionRowMatches p c))
            (ex,
             if ex then warnings0
             else warnings0 ++ ["Article/section " ++ s ++ " not found in " ++ doc.title])
        | none => (false, warnings0)
      { citation := parsed, document_exists := true, provision_exists := checked.1,
        document_title := some doc.title, status := some doc.status,
        warnings := checked.2 }

/-! ### The citation formatter -/

/-- `CitationFormat` of `src/types`. -/
inductive CitationFormat where
  | full | short | pinpoint
deriving DecidableEq, Repr

/-- `buildPinpoint` of the formatter (JS truthiness: an empty subsection
or paragraph string appends nothing). -/
def buildPinpoint (parsed : ParsedCitation) : String :=
  let ref := parsed.«section».getD ""
  let ref :=
    match parsed.subsection with
    | some s => if s.isEmpty then ref else ref ++ "(" ++ s ++ ")"
    | none => ref
  match parsed.paragraph with
  | some p => if p.isEmpty then ref else ref ++ "(" ++ p ++ ")"
  | none => ref

/-- `/^(loi|règlement|reglement|arr[eê]t[eé])/i.test(title)`. -/
def luxStyleTest (title : String) : Bool :=
  let l := title.data.map jsToLower
  listStartsWith ['l','o','i'] l ||
  listStartsWith ['r','è','g','l','e','m','e','n','t'] l ||
  listStartsWith ['r','e','g','l','e','m','e','n','t'] l ||
  (match l with
   | 'a' :: 'r' :: 'r' :: e1 :: 't' :: e2 :: _ =>
     (e1 = 'e' || e1 = 'ê') && (e2 = 'e' || e2 = 'é')
   | _ => false)

/-- `formatCitation` of the citation formatter. -/
def formatCitation (parsed : ParsedCitation) (format : CitationFormat) : String :=
  if parsed.valid = false || parsed.«section».getD "" = "" then ""
  else
    let pinpoint := buildPinpoint parsed
    let title := parsed.title.map jsTrim
    let year :=
      match parsed.year with
      | some y => if y = 0 then "" else jsNumToString y
      | none => ""
    let luxembourgStyle :=
      match title with
      | some t => !t.isEmpty && luxStyleTest t
      | none => false
    match format with
    | .full =>
      if luxembourgStyle then jsTrim (title.getD "" ++ ", art. " ++ pinpoint)
      else jsTrim ("Section " ++ pinpoint ++ ", " ++ title.getD "" ++ " " ++ year)
    | .short => jsTrim ("art. " ++ pinpoint ++ " " ++ title.getD "" ++ " " ++ year)
    | .pinpoint => "art. " ++ pinpoint

/-! ### scripts/lib/parser.ts: Akoma Ntoso text extraction and articles -/

/-- A value of the parsed-XML tree as `fast-xml-parser` delivers it:
string, number, boolean, null, array, or keyed node map (insertion
ordered). -/
inductive JsonVal where
  | str (s : String)
  | num (n : Int)
  | jbool (b : Bool)
  | jnull
  | arr (items : List JsonVal)
  | obj (fields : List (String × JsonVal))
deriving Repr

/-- First field of the given key (JS property lookup). -/
def lookupField (fields : List (String × JsonVal)) (k : String) : Option JsonVal :=
  match fields with
  | [] => none
  | (k0, v) :: rest => if k0 = k then some v else lookupField rest k

/-- `INLINE_ELEMENTS` of `scripts/lib/parser.ts`. -/
def isInlineElement (k : String) : Bool :=
  k = "sup" || k = "sub" || k = "b" || k = "i" || k = "em" || k = "strong" || k = "span"

/-- `Array.prototype.join`. -/
def joinSep (sep : String) : List String → String
  | [] => ""
  | [s] => s
  | s :: rest => s ++ sep ++ joinSep sep rest

/-- Merge an inline run into the last emitted segment. -/
def updateLast (parts : List String) (s : String) : List String :=
  parts.dropLast ++ [parts.getLast?.getD "" ++ s]

mutual

/-- `extractText` of `scripts/lib/parser.ts`. -/
def extractText (node : JsonVal) (noSpace : Bool) : String :=
  match node with
  | .jnull => ""
  | .str s => s
  | .num n => jsIntToString n
  | .jbool _ => ""
  | .arr items =>
    joinSep (if noSpace then "" else " ")
      ((extractTextList items noSpace).filter (fun s => !s.isEmpty))
  | .obj fields =>
    let parts := extractFields (extractHashText fields noSpace) noSpace fields
    joinSep (if noSpace then "" else " ") (parts.filter (fun s => !s.isEmpty))

/-- The `'#text' in obj` prelude of the object case. -/
def extractHashText (fields : List (String × JsonVal)) (noSpace : Bool) : List String :=
  match fields with
  | [] => []
  | (k, v) :: rest =>
    if k = "#text" then [extractText v noSpace] else extractHashText rest noSpace

/-- The `Object.entries` loop of the object case, threading the
accumulated segments. -/
def extractFields (parts : List String) (noSpace : Bool) :
    List (String × JsonVal) → List String
  | [] => parts
  | (k, v) :: rest =>
    if k = "#text" then extractFields parts noSpace rest
    else if listStartsWith ['@','_'] k.data then extractFields parts noSpace rest
    else if isInlineElement k then
      let inlineText := extractText v true
      if !inlineText.isEmpty && !parts.isEmpty then
        extractFields (updateLast parts inlineText) noSpace rest
      else if !inlineText.isEmpty then
        extractFields (parts ++ [inlineText]) noSpace rest
      else extractFields parts noSpace rest
    else extractFields (parts ++ [extractText v noSpace]) noSpace rest

/-- Element-wise extraction of an array node. -/
def extractTextList (items : List JsonVal) (noSpace : Bool) : List String :=
  match items with
  | [] => []
  | v :: rest => extractText v noSpace :: extractTextList rest noSpace

end

/-- One pass of `replace(/\s+(C)/g, '$1')` for a set `C` of following
characters: a whitespace character is dropped exactly when the first
non-whitespace character after it belongs to `C`. -/
def dropWsBeforeSet (puncts : List Char) : List Char → List Char
  | [] => []
  | c :: rest =>
    if jsIsSpace c &&
        (match rest.dropWhile jsIsSpace with
         | p :: _ => puncts.contains p
         | [] => false) then
      dropWsBeforeSet puncts rest
    else c :: dropWsBeforeSet puncts rest

/-- `replace(/\(\s+/g, '(')`: a whitespace run is dropped exactly when
it directly follows an opening parenthesis. -/
def dropWsAfterParenGo (afterParen : Bool) : List Char → List Char
  | [] => []
  | c :: rest =>
    if jsIsSpace c then
      if afterParen then dropWsAfterParenGo true rest
      else c :: dropWsAfterParenGo false rest
    else c :: dropWsAfterParenGo (c = '(') rest

/-- `cleanText` of `scripts/lib/parser.ts` (whitespace collapse,
punctuation spacing fixes, trim, in source order). -/
def cleanText (s : String) : String :=
  ⟨jsTrimL (dropWsBeforeSet [')']
    (dropWsAfterParenGo false
      (dropWsBeforeSet ['.',',',';',':','!','?'] (collapseWs s.data))))⟩

/-- `replace(/^Art\.\s*/i, '')`. -/
def stripArtNumLead (l : List Char) : List Char :=
  match ciStrip ['a','r','t','.'] l with
  | some r => r.dropWhile jsIsSpace
  | none => l

/-- `replace(/\.\s*$/, '')`: one trailing period together with the
whitespace after it. -/
def stripDotWsEnd (l : List Char) : List Char :=
  match (l.reverse.dropWhile jsIsSpace) with
  | '.' :: rest => rest.reverse
  | _ => l

/-- `replace(/(\d+)\.(\w+)$/, '$1$2')`: at the leftmost position where
digits, one period and word characters run to the end, drop that
period. -/
def artifactFix : List Char → List Char
  | [] => []
  | c :: rest =>
    let l := c :: rest
    let ds := l.takeWhile isDigitChar
    let attempt : Option (List Char) :=
      if ds.isEmpty then none
      else
        match l.drop ds.length with
        | '.' :: w => if !w.isEmpty && w.all isWordChar then some (ds ++ w) else none
        | _ => none
    match attempt with
    | some replaced => replaced
    | none => c :: artifactFix rest

/-- `extractArticleNum` of `scripts/lib/parser.ts`. -/
def extractArticleNum (numNode : JsonVal) : String :=
  let rawText := extractText numNode false
  ⟨removeWs (artifactFix (stripDotWsEnd (jsTrimL (stripArtNumLead rawText.data))))⟩

/-- `replace(/^art\.?\s*/i, '')` (no optional `icle` in this one). -/
def stripArtDotShort (l : List Char) : List Char :=
  match ciStrip ['a','r','t'] l with
  | none => l
  | some r =>
    let r2 :=
      match r with
      | '.' :: x => x
      | _ => r
    r2.dropWhile jsIsSpace

/-- `normalizeArticleRef` of `scripts/lib/parser.ts`. -/
def normalizeArticleRef (num : String) : String :=
  let c1 := stripArtDotShort (removeWs num.data)
  let c2 :=
    match c1.reverse with
    | '.' :: rest => rest.reverse
    | _ => c1
  let c3 := c2.map jsToLower
  let ds := c3.takeWhile isDigitChar
  let c4 := if !ds.isEmpty && c3.drop ds.length = ['e','r'] then ds else c3
  ⟨'a' :: 'r' :: 't' :: c4⟩

/-- JS truthiness of an optional node value. -/
def jsTruthy : Option JsonVal → Bool
  | none => false
  | some v =>
    match v with
    | .str s => !s.isEmpty
    | .num n => n ≠ 0
    | .jbool b => b
    | .jnull => false
    | .arr _ => true
    | .obj _ => true

/-- `Array.isArray(x) ? x : [x]`. -/
def toNodeList : JsonVal → List JsonVal
  | .arr items => items
  | v => [v]

/-- The non-empty cleaned text blocks of one element category. -/
def blocksOf (v : JsonVal) : List String :=
  ((toNodeList v).map (fun n => cleanText (extractText n false))).filter
    (fun t => !t.isEmpty)

/-- `ParsedProvision` of `scripts/lib/parser.ts`. -/
structure ParsedProvision where
  provision_ref : String
  sectionLabel : String
  title : String
  content : String
deriving DecidableEq, Repr

/-- The content-assembly part of `processArticle`: alinea blocks, then
paragraph blocks (not guarded by the absence of alineas), then content
blocks only when neither alineas nor paragraphs are truthy, then `p`
blocks only when none of the previous three are. -/
def articleContentParts (article : List (String × JsonVal)) : List String :=
  let alineas := lookupField article "alinea"
  let paragraphs := lookupField article "paragraph"
  let contentNodes := lookupField article "content"
  let pNodes := lookupField article "p"
  (if jsTruthy alineas then blocksOf (alineas.getD .jnull) else []) ++
  (if jsTruthy paragraphs then blocksOf (paragraphs.getD .jnull) else []) ++
  (if jsTruthy contentNodes && !jsTruthy alineas && !jsTruthy paragraphs then
    blocksOf (contentNodes.getD .jnull) else []) ++
  (if jsTruthy pNodes && !jsTruthy alineas && !jsTruthy paragraphs &&
      !jsTruthy contentNodes then
    blocksOf (pNodes.getD .jnull) else [])

/-- `processArticle` of `scripts/lib/parser.ts` as a function from one
article node to its optional emitted provision. -/
def processArticle (article : List (String × JsonVal)) (chapterRef : Option String) :
    Option ParsedProvision :=
  let numNode := lookupField article "num"
  let articleNum := if jsTruthy numNode then extractArticleNum (numNode.getD .jnull) else ""
  if articleNum.isEmpty then none
  else
    let fullContent := joinSep "\n\n" (articleContentParts article)
    if fullContent.isEmpty then none
    else some
      { provision_ref := normalizeArticleRef articleNum
        sectionLabel := chapterRef.getD "1"
        title := "Article " ++ articleNum
        content := fullContent }

/-- Keep-first-occurrence deduplication, stated the way the amended spec
sentence reads: each URI keeps its first entry in collection order. -/
def firstOccurrences : List LawIndexEntry → List LawIndexEntry
  | [] => []
  | e :: rest => e :: firstOccurrences (rest.filter (fun x => x.uri ≠ e.uri))
termination_by l => l.length
decreasing_by
  simp only [List.length_cons]
  exact Nat.lt_succ_of_le (List.length_filter_le _ _)

/-! ## Helper lemmas -/

theorem dropWhile_self_idem (q : Char → Bool) (l : List Char) :
    (l.dropWhile q).dropWhile q = l.dropWhile q := by
  induction l with
  | nil => rfl
  | cons c t ih =>
    by_cases h : q c
    · simpa [List.dropWhile_cons, h] using ih
    · simp [List.dropWhile_cons, h]

theorem dropWhile_eq_self_of_head (q : Char → Bool) (l : List Char)
    (h : ∀ c, l.head? = some c → q c = false) : l.dropWhile q = l := by
  cases l with
  | nil => rfl
  | cons c t => simp [List.dropWhile_cons, h c rfl]

theorem head_of_dropWhile_self (q : Char → Bool) (l : List Char) :
    ∀ c, (l.dropWhile q).head? = some c → q c = false := by
  induction l with
  | nil => intro c h; simp at h
  | cons x t ih =>
    intro c h
    by_cases hq : q x
    · rw [List.dropWhile_cons, if_pos hq] at h
      exact ih c h
    · rw [List.dropWhile_cons, if_neg hq] at h
      simp only [List.head?_cons, Option.some.injEq] at h
      subst h
      simpa using hq

theorem jsTrimL_idem (l : List Char) : jsTrimL (jsTrimL l) = jsTrimL l := by
  unfold jsTrimL
  set q := jsIsSpace
  set a := l.dropWhile q with ha
  set b := a.reverse.dropWhile q with hb
  have hIdemA : a.dropWhile q = a := ha ▸ dropWhile_self_idem q l
  have hIdemB : b.dropWhile q = b := hb ▸ dropWhile_self_idem q a.reverse
  -- b.reverse is a prefix of a, and a starts with a non-q character
  have hsplit : a = b.reverse ++ (a.reverse.takeWhile q).reverse := by
    have h := congrArg List.reverse
      (List.takeWhile_append_dropWhile (p := q) (l := a.reverse))
    rw [List.reverse_append, List.reverse_reverse] at h
    rw [hb]
    exact h.symm
  have houter : b.reverse.dropWhile q = b.reverse := by
    apply dropWhile_eq_self_of_head
    intro c hc
    have hb' : a.head? = some c := by
      rw [hsplit]
      cases hbr : b.reverse with
      | nil => simp [hbr] at hc
      | cons x t => simp [hbr] at hc ⊢; exact hc
    exact head_of_dropWhile_self q l c (ha ▸ hb')
  calc (((b.reverse.dropWhile q).reverse).dropWhile q).reverse
      = ((b.reverse.reverse).dropWhile q).reverse := by rw [houter]
    _ = (b.dropWhile q).reverse := by rw [b.reverse_reverse]
    _ = b.reverse := by rw [hIdemB]

theorem jsTrim_idem (s : String) : jsTrim (jsTrim s) = jsTrim s := by
  unfold jsTrim
  exact congrArg String.mk (jsTrimL_idem s.data)
/-- C4: two provisions sharing a trimmed ref whose normalized contents
differ in text and in length dedupe to the single strictly-longer entry,
with title inheritance only filling an absent title, and the stats
report one duplicate ref and one conflicting duplicate. -/
theorem dedupe_two_conflicting (p1 p2 : ProvisionSeed)
    (href : jsTrim p1.provision_ref = jsTrim p2.provision_ref)
    (hcontent : normalizeWhitespace p1.content ≠ normalizeWhitespace p2.content)
    (hlen : (normalizeWhitespace p1.content).length ≠ (normalizeWhitespace p2.content).length) :
    (dedupeProvisions [p1, p2]).2 = ⟨1, 1⟩ ∧
    (dedupeProvisions [p1, p2]).1.map ProvisionSeed.content =
      [if (normalizeWhitespace p1.content).length < (normalizeWhitespace p2.content).length
       then p2.content else p1.content] ∧
    (dedupeProvisions [p1, p2]).1.map ProvisionSeed.title =
      [if (normalizeWhitespace p1.content).length < (normalizeWhitespace p2.content).length
       then p2.title.orElse (fun _ => p1.title) else p1.title.orElse (fun _ => p2.title)] := by
  have e1 : dedupeStep ([], ⟨0, 0⟩) p1 =
      ([(jsTrim p1.provision_ref, {p1 with provision_ref := jsTrim p1.provision_ref})], ⟨0, 0⟩) := rfl
  simp only [dedupeProvisions, List.foldl, e1]
  rw [show (dedupeStep ([(jsTrim p1.provision_ref, {p1 with provision_ref := jsTrim p1.provision_ref})], ⟨0, 0⟩) p2) =
    ([(jsTrim p1.provision_ref,
       pickPreferredProvision {p1 with provision_ref := jsTrim p1.provision_ref} p2)], ⟨1, 1⟩) from ?step]
  · constructor
    · rfl
    · unfold pickPreferredProvision
      by_cases hlt : (normalizeWhitespace ({p1 with provision_ref := jsTrim p1.provision_ref} : ProvisionSeed).content).length < (normalizeWhitespace p2.content).length
      · simp only [hlt, if_pos] at *
        simp [hlt]
      · simp [hlt]
  · unfold dedupeStep
    simp only [mapGet, href, if_pos rfl]
    unfold mapSet
    simp only [if_pos rfl]
    have hc2 : normalizeWhitespace ({p1 with provision_ref := jsTrim p1.provision_ref} : ProvisionSeed).content ≠ normalizeWhitespace p2.content := hcontent
    simp [hc2]

theorem dedupe_two_conflicting_witness :
    (dedupeProvisions [⟨"a", none, "s", none, "x"⟩, ⟨"a", none, "s", some "T", "xx yy"⟩]).2 = ⟨1, 1⟩ ∧
    (dedupeProvisions [⟨"a", none, "s", none, "x"⟩, ⟨"a", none, "s", some "T", "xx yy"⟩]).1.map
        ProvisionSeed.content =
      [if (normalizeWhitespace "x").length < (normalizeWhitespace "xx yy").length
       then "xx yy" else "x"] ∧
    (dedupeProvisions [⟨"a", none, "s", none, "x"⟩, ⟨"a", none, "s", some "T", "xx yy"⟩]).1.map
        ProvisionSeed.title =
      [if (normalizeWhitespace "x").length < (normalizeWhitespace "xx yy").length
       then (some "T").orElse (fun _ => none) else Option.orElse none (fun _ => some "T")] :=
  dedupe_two_conflicting ⟨"a", none, "s", none, "x"⟩ ⟨"a", none, "s", some "T", "xx yy"⟩
    (by decide) (by decide) (by decide)

theorem mapGet_eq_none_iff (m : List (String × ProvisionSeed)) (k : String) :
    mapGet m k = none ↔ k ∉ m.map Prod.fst := by
  induction m with
  | nil => simp [mapGet]
  | cons kv rest ih =>
    obtain ⟨k0, v0⟩ := kv
    by_cases h : k0 = k
    · subst h
      simp [mapGet]
    · simp [mapGet, h, ih, Ne.symm h]

theorem mapSet_append (m : List (String × ProvisionSeed)) (k : String) (v : ProvisionSeed)
    (h : mapGet m k = none) : mapSet m k v = m ++ [(k, v)] := by
  induction m with
  | nil => rfl
  | cons kv rest ih =>
    obtain ⟨k0, v0⟩ := kv
    simp only [mapGet] at h
    by_cases hk : k0 = k
    · simp [hk] at h
    · simp only [mapSet, if_neg hk, List.cons_append, List.cons.injEq, true_and]
      exact ih (by simpa [hk] using h)

theorem mapGet_append_single (m : List (String × ProvisionSeed)) (k k' : String)
    (v' : ProvisionSeed) (h : mapGet m k = none) (hne : k ≠ k') :
    mapGet (m ++ [(k', v')]) k = none := by
  induction m with
  | nil => simp [mapGet, Ne.symm hne]
  | cons kv rest ih =>
    obtain ⟨k0, v0⟩ := kv
    simp only [mapGet] at h ⊢
    by_cases hk : k0 = k
    · simp [hk] at h
    · simp only [List.cons_append, mapGet, if_neg hk]
      exact ih (by simpa [hk] using h)

theorem mapSet_keys_of_get_some (m : List (String × ProvisionSeed)) (k : String)
    (v w : ProvisionSeed) (h : mapGet m k = some w) :
    (mapSet m k v).map Prod.fst = m.map Prod.fst := by
  induction m with
  | nil => simp [mapGet] at h
  | cons kv rest ih =>
    obtain ⟨k0, v0⟩ := kv
    simp only [mapGet] at h
    by_cases hk : k0 = k
    · simp [mapSet, hk]
    · simp only [mapSet, if_neg hk, List.map_cons, List.cons.injEq, true_and]
      exact ih (by simpa [hk] using h)

theorem mapSet_mem (m : List (String × ProvisionSeed)) (k : String) (v : ProvisionSeed) :
    ∀ kv ∈ mapSet m k v, kv ∈ m ∨ kv = (k, v) := by
  induction m with
  | nil => intro kv h; simp [mapSet] at h; simp [h]
  | cons kv0 rest ih =>
    obtain ⟨k0, v0⟩ := kv0
    intro kv h
    by_cases hk : k0 = k
    · simp only [mapSet, if_pos hk, List.mem_cons] at h
      rcases h with h | h
      · right; rw [h, hk]
      · left; simp [h]
    · simp only [mapSet, if_neg hk, List.mem_cons] at h
      rcases h with h | h
      · left; simp [h]
      · rcases ih kv h with h' | h'
        · left; simp [h']
        · right; exact h'

theorem mapGet_some_mem (m : List (String × ProvisionSeed)) (k : String) (w : ProvisionSeed)
    (h : mapGet m k = some w) : (k, w) ∈ m := by
  induction m with
  | nil => simp [mapGet] at h
  | cons kv rest ih =>
    obtain ⟨k0, v0⟩ := kv
    simp only [mapGet] at h
    by_cases hk : k0 = k
    · rw [if_pos hk] at h
      simp only [Option.some.injEq] at h
      simp [← hk, ← h]
    · rw [if_neg hk] at h
      exact List.mem_cons_of_mem _ (ih h)

theorem pickPreferred_ref (e i : ProvisionSeed) :
    (pickPreferredProvision e i).provision_ref = e.provision_ref ∨
    (pickPreferredProvision e i).provision_ref = i.provision_ref := by
  unfold pickPreferredProvision
  by_cases h : (normalizeWhitespace e.content).length < (normalizeWhitespace i.content).length
  · right; simp [h]
  · left; simp [h]
theorem dedupe_fold_fresh (ps : List ProvisionSeed) :
    ∀ (m : List (String × ProvisionSeed)) (stats : ProvisionDedupStats),
    (∀ p ∈ ps, mapGet m (jsTrim p.provision_ref) = none) →
    ps.Pairwise (fun a b => jsTrim a.provision_ref ≠ jsTrim b.provision_ref) →
    ps.foldl dedupeStep (m, stats) =
      (m ++ ps.map (fun p => (jsTrim p.provision_ref,
        {p with provision_ref := jsTrim p.provision_ref})), stats) := by
  induction ps with
  | nil => intro m stats _ _; simp
  | cons p rest ih =>
    intro m stats hfresh hpair
    have hstep : dedupeStep (m, stats) p =
        (m ++ [(jsTrim p.provision_ref, {p with provision_ref := jsTrim p.provision_ref})], stats) := by
      unfold dedupeStep
      simp only [hfresh p (List.mem_cons_self p rest)]
      rw [mapSet_append m _ _ (hfresh p (List.mem_cons_self p rest))]
    rw [List.foldl_cons, hstep]
    rw [List.pairwise_cons] at hpair
    have hfresh' : ∀ q ∈ rest, mapGet (m ++ [(jsTrim p.provision_ref,
        {p with provision_ref := jsTrim p.provision_ref})]) (jsTrim q.provision_ref) = none := by
      intro q hq
      exact mapGet_append_single m _ _ _ (hfresh q (List.mem_cons_of_mem _ hq))
        (fun h => hpair.1 q hq h.symm)
    rw [ih _ stats hfresh' hpair.2]
    simp

theorem dedupe_fold_inv (ps : List ProvisionSeed) :
    ∀ (m : List (String × ProvisionSeed)) (stats : ProvisionDedupStats),
    (m.map Prod.fst).Nodup →
    (∀ kv ∈ m, jsTrim kv.2.provision_ref = kv.1) →
    ((ps.foldl dedupeStep (m, stats)).1.map Prod.fst).Nodup ∧
      ∀ kv ∈ (ps.foldl dedupeStep (m, stats)).1, jsTrim kv.2.provision_ref = kv.1 := by
  induction ps with
  | nil => intro m stats h1 h2; exact ⟨h1, h2⟩
  | cons p rest ih =>
    intro m stats h1 h2
    rw [List.foldl_cons]
    rcases hget : mapGet m (jsTrim p.provision_ref) with _ | w
    · have hstep : dedupeStep (m, stats) p =
          (m ++ [(jsTrim p.provision_ref, {p with provision_ref := jsTrim p.provision_ref})], stats) := by
        unfold dedupeStep
        simp only [hget]
        rw [mapSet_append m _ _ hget]
      rw [hstep]
      apply ih
      · rw [List.map_append, List.map_singleton]
        apply List.Nodup.append h1 (List.nodup_singleton _)
        intro k hk hk'
        simp only [List.mem_singleton] at hk'
        exact absurd ((mapGet_eq_none_iff m _).mp hget) (by rw [← hk']; exact fun h => h hk)
      · intro kv hkv
        rcases List.mem_append.mp hkv with h | h
        · exact h2 kv h
        · simp only [List.mem_singleton] at h
          rw [h]
          exact jsTrim_idem p.provision_ref
    · have hstep : (dedupeStep (m, stats) p).1 =
          mapSet m (jsTrim p.provision_ref) (pickPreferredProvision w p) := by
        unfold dedupeStep
        rw [hget]
      have hstats : ∃ st, dedupeStep (m, stats) p =
          (mapSet m (jsTrim p.provision_ref) (pickPreferredProvision w p), st) :=
        ⟨(dedupeStep (m, stats) p).2, by rw [← hstep]⟩
      obtain ⟨st, hst⟩ := hstats
      rw [hst]
      apply ih
      · rw [mapSet_keys_of_get_some m _ _ w hget]
        exact h1
      · intro kv hkv
        rcases mapSet_mem m _ _ kv hkv with h | h
        · exact h2 kv h
        · rw [h]
          rcases pickPreferred_ref w p with hr | hr
        
          · simp only [hr]
            exact h2 (jsTrim p.provision_ref, w) (mapGet_some_mem m _ w hget)
          · simp only [hr]
theorem dedupe_fold_trimmed_vals (ps : List ProvisionSeed) :
    ∀ (m : List (String × ProvisionSeed)) (stats : ProvisionDedupStats),
    (∀ p ∈ ps, jsTrim p.provision_ref = p.provision_ref) →
    (∀ kv ∈ m, jsTrim kv.2.provision_ref = kv.2.provision_ref) →
    ∀ kv ∈ (ps.foldl dedupeStep (m, stats)).1, jsTrim kv.2.provision_ref = kv.2.provision_ref := by
  induction ps with
  | nil => intro m stats _ hm; exact hm
  | cons p rest ih =>
    intro m stats hin hm
    rw [List.foldl_cons]
    have hin' : ∀ q ∈ rest, jsTrim q.provision_ref = q.provision_ref :=
      fun q hq => hin q (List.mem_cons_of_mem _ hq)
    rcases hget : mapGet m (jsTrim p.provision_ref) with _ | w
    · have hstep : dedupeStep (m, stats) p =
          (m ++ [(jsTrim p.provision_ref, {p with provision_ref := jsTrim p.provision_ref})], stats) := by
        unfold dedupeStep
        simp only [hget]
        rw [mapSet_append m _ _ hget]
      rw [hstep]
      apply ih _ _ hin'
      intro kv hkv
      rcases List.mem_append.mp hkv with h | h
      · exact hm kv h
      · simp only [List.mem_singleton] at h
        rw [h]
        exact jsTrim_idem p.provision_ref
    · have hstep : dedupeStep (m, stats) p =
          (mapSet m (jsTrim p.provision_ref) (pickPreferredProvision w p),
           (dedupeStep (m, stats) p).2) := by
        unfold dedupeStep
        simp only [hget]
      rw [hstep]
      apply ih _ _ hin'
      intro kv hkv
      rcases mapSet_mem m _ _ kv hkv with h | h
      · exact hm kv h
      · rw [h]
        rcases pickPreferred_ref w p with hr | hr
        · simp only [hr]
          exact hm (jsTrim p.provision_ref, w) (mapGet_some_mem m _ w hget)
        · simp only [hr]
          exact hin p (List.mem_cons_self p rest)

/-- C9 (amended): a second run of the deduplicator always reports zero
duplicate and conflicting counts, and returns the first output with every
provision_ref trimmed; when the original refs were already trimmed the
list comes back unchanged. -/
theorem dedupe_second_run (l : List ProvisionSeed) :
    (dedupeProvisions (dedupeProvisions l).1).2 = ⟨0, 0⟩ ∧
    (dedupeProvisions (dedupeProvisions l).1).1 =
      (dedupeProvisions l).1.map (fun p => {p with provision_ref := jsTrim p.provision_ref}) ∧
    ((∀ p ∈ l, jsTrim p.provision_ref = p.provision_ref) →
      (dedupeProvisions (dedupeProvisions l).1).1 = (dedupeProvisions l).1) := by
  obtain ⟨hnodup, hvals⟩ := dedupe_fold_inv l [] ⟨0, 0⟩ (by simp) (by simp)
  set m := (l.foldl dedupeStep ([], ⟨0, 0⟩)).1 with hm
  have hd1 : (dedupeProvisions l).1 = m.map Prod.snd := rfl
  -- the trimmed refs of the first output are exactly the (pairwise distinct) keys
  have hkeys : (m.map Prod.snd).map (fun p => jsTrim p.provision_ref) = m.map Prod.fst := by
    rw [List.map_map]
    exact List.map_congr_left (fun kv hkv => hvals kv hkv)
  have hpair : (m.map Prod.snd).Pairwise
      (fun a b => jsTrim a.provision_ref ≠ jsTrim b.provision_ref) := by
    have := hkeys ▸ hnodup
    exact (List.pairwise_map.mp this)
  have hfresh : ∀ p ∈ m.map Prod.snd, mapGet [] (jsTrim p.provision_ref) = none :=
    fun p _ => rfl
  have hfold := dedupe_fold_fresh (m.map Prod.snd) [] ⟨0, 0⟩ hfresh hpair
  refine ⟨?_, ?_, ?_⟩
  · show (((m.map Prod.snd).foldl dedupeStep ([], ⟨0, 0⟩)).2) = ⟨0, 0⟩
    rw [hfold]
  · show (((m.map Prod.snd).foldl dedupeStep ([], ⟨0, 0⟩)).1.map Prod.snd) = _
    rw [hfold, hd1]
    simp [List.map_map, Function.comp]
  · intro htrimmed
    show (((m.map Prod.snd).foldl dedupeStep ([], ⟨0, 0⟩)).1.map Prod.snd) = _
    rw [hfold, hd1]
    have hvals2 : ∀ kv ∈ m, jsTrim kv.2.provision_ref = kv.2.provision_ref :=
      dedupe_fold_trimmed_vals l [] ⟨0, 0⟩ htrimmed (by simp)
    simp only [List.nil_append, List.map_map]
    apply List.map_congr_left
    intro kv hkv
    show ({kv.2 with provision_ref := jsTrim kv.2.provision_ref} : ProvisionSeed) = kv.2
    rw [hvals2 kv hkv]

/-- C9 counterexample: on an input whose colliding refs differ in
surrounding whitespace, the second run changes the surviving
provision_ref (it trims it), so re-running is not literally a no-op. -/
theorem dedupe_second_run_counterexample :
    (dedupeProvisions (dedupeProvisions
        [⟨"a", none, "s", none, "x"⟩, ⟨" a", none, "s", none, "xx yy"⟩]).1).1 ≠
      (dedupeProvisions [⟨"a", none, "s", none, "x"⟩, ⟨" a", none, "s", none, "xx yy"⟩]).1 := by
  decide

theorem dedupe_second_run_witness :
    (dedupeProvisions (dedupeProvisions [⟨"a", none, "s", none, "x"⟩]).1).1 =
      (dedupeProvisions [⟨"a", none, "s", none, "x"⟩]).1 :=
  (dedupe_second_run [⟨"a", none, "s", none, "x"⟩]).2.2 (by decide)
theorem dedupeByUriAux_firstOcc (l : List LawIndexEntry) :
    ∀ (seen : List String),
    dedupeByUriAux seen l = firstOccurrences (l.filter (fun e => !decide (e.uri ∈ seen))) := by
  induction l with
  | nil => intro seen; simp [dedupeByUriAux, firstOccurrences]
  | cons e rest ih =>
    intro seen
    by_cases hseen : e.uri ∈ seen
    · rw [show dedupeByUriAux seen (e :: rest) = dedupeByUriAux seen rest
          from by simp [dedupeByUriAux, hseen]]
      rw [show (e :: rest).filter (fun x => !decide (x.uri ∈ seen)) =
          rest.filter (fun x => !decide (x.uri ∈ seen)) from by simp [List.filter, hseen]]
      exact ih seen
    · rw [show dedupeByUriAux seen (e :: rest) = e :: dedupeByUriAux (e.uri :: seen) rest
          from by simp [dedupeByUriAux, hseen]]
      rw [show (e :: rest).filter (fun x => !decide (x.uri ∈ seen)) =
          e :: rest.filter (fun x => !decide (x.uri ∈ seen)) from by simp [List.filter, hseen]]
      rw [show firstOccurrences (e :: rest.filter (fun x => !decide (x.uri ∈ seen))) =
          e :: firstOccurrences ((rest.filter (fun x => !decide (x.uri ∈ seen))).filter
            (fun x => x.uri ≠ e.uri)) from by rw [firstOccurrences]]
      rw [ih (e.uri :: seen)]
      congr 1
      rw [List.filter_filter]
      exact congrArg firstOccurrences (List.filter_congr (fun x _ => by
        by_cases h1 : x.uri = e.uri <;> by_cases h2 : x.uri ∈ seen <;>
          simp [h1, h2, List.mem_cons]))
theorem firstOccurrences_nil : firstOccurrences [] = [] := by
  rw [firstOccurrences]

theorem mem_firstOccurrences :
    ∀ (n : Nat) (l : List LawIndexEntry), l.length ≤ n → ∀ x ∈ firstOccurrences l, x ∈ l := by
  intro n
  induction n with
  | zero =>
    intro l hl x hx
    rw [Nat.le_zero, List.length_eq_zero] at hl
    subst hl
    simpa [firstOccurrences_nil] using hx
  | succ n ih =>
    intro l hl x hx
    cases l with
    | nil => simpa [firstOccurrences_nil] using hx
    | cons e rest =>
      rw [firstOccurrences] at hx
      rcases List.mem_cons.mp hx with h | h
      · simp [h]
      · have hlen : (rest.filter (fun x => x.uri ≠ e.uri)).length ≤ n :=
          le_trans (List.length_filter_le _ _) (by simpa using hl)
        exact List.mem_cons_of_mem _ (List.mem_of_mem_filter (ih _ hlen x h))

theorem firstOccurrences_pairwise :
    ∀ (n : Nat) (l : List LawIndexEntry), l.length ≤ n →
    (firstOccurrences l).Pairwise (fun a b => a.uri ≠ b.uri) := by
  intro n
  induction n with
  | zero =>
    intro l hl
    rw [Nat.le_zero, List.length_eq_zero] at hl
    subst hl
    simp [firstOccurrences_nil]
  | succ n ih =>
    intro l hl
    cases l with
    | nil => simp [firstOccurrences]
    | cons e rest =>
      rw [firstOccurrences]
      have hlen : (rest.filter (fun x => x.uri ≠ e.uri)).length ≤ n :=
        le_trans (List.length_filter_le _ _) (by simpa using hl)
      refine List.Pairwise.cons ?_ (ih _ hlen)
      intro b hb
      have hbf : b ∈ rest.filter (fun x => x.uri ≠ e.uri) :=
        mem_firstOccurrences n _ hlen b hb
      have := List.of_mem_filter hbf
      simp only [decide_eq_true_eq] at this
      exact fun hcontra => this (hcontra ▸ rfl)

theorem firstOccurrences_uri_set :
    ∀ (n : Nat) (l : List LawIndexEntry), l.length ≤ n →
    ∀ u, u ∈ l.map LawIndexEntry.uri ↔ u ∈ (firstOccurrences l).map LawIndexEntry.uri := by
  intro n
  induction n with
  | zero =>
    intro l hl
    rw [Nat.le_zero, List.length_eq_zero] at hl
    subst hl
    simp [firstOccurrences_nil]
  | succ n ih =>
    intro l hl u
    cases l with
    | nil => simp [firstOccurrences_nil]
    | cons e rest =>
      rw [firstOccurrences]
      have hlen : (rest.filter (fun x => x.uri ≠ e.uri)).length ≤ n :=
        le_trans (List.length_filter_le _ _) (by simpa using hl)
      by_cases hu : u = e.uri
      · subst hu
        simp
      · simp only [List.map_cons, List.mem_cons, hu, false_or]
        rw [← ih _ hlen u]
        constructor
        · intro hmem
          rcases List.mem_map.mp hmem with ⟨x, hx, hxu⟩
          exact List.mem_map.mpr ⟨x, List.mem_filter.mpr ⟨hx, by
            simp only [decide_eq_true_eq]
            exact fun hc => hu (hxu ▸ hc ▸ rfl)⟩, hxu⟩
        · intro hmem
          rcases List.mem_map.mp hmem with ⟨x, hx, hxu⟩
          exact List.mem_map.mpr ⟨x, List.mem_of_mem_filter hx, hxu⟩

/-- C8 (amended): discovery deduplication keeps exactly one entry per
distinct source URI, namely the first-encountered entry in collection
order (not the one with the greatest date). -/
theorem discovery_dedupe_keeps_first (l : List LawIndexEntry) :
    dedupeByUri l = firstOccurrences l ∧
    (dedupeByUri l).Pairwise (fun a b => a.uri ≠ b.uri) ∧
    ∀ u, u ∈ l.map LawIndexEntry.uri ↔ u ∈ (dedupeByUri l).map LawIndexEntry.uri := by
  have heq : dedupeByUri l = firstOccurrences l := by
    have := dedupeByUriAux_firstOcc l []
    simpa [dedupeByUri, List.filter_true] using this
  refine ⟨heq, ?_, ?_⟩
  · rw [heq]
    exact firstOccurrences_pairwise l.length l le_rfl
  · rw [heq]
    exact firstOccurrences_uri_set l.length l le_rfl

/-- C8 counterexample: two entries sharing a URI where the second has
the lexicographically greater date; the dedup keeps the first (date
`2020`), not the greatest-date entry. -/
theorem discovery_dedupe_counterexample :
    (dedupeByUri [⟨"u", "2020", "t", "LOI", "x"⟩, ⟨"u", "2021", "t", "LOI", "x"⟩]).map
        LawIndexEntry.date = ["2020"] ∧
    "2020".data < "2021".data := by
  constructor
  · rfl
  · decide
/-- C7 (amended): for a regulation match with two positive numeric
tokens, the token that parses as a valid year supplies the year and the
other token the number; when both parse, the community default order
decides (legacy: second-as-year/first-as-number, EU:
first-as-year/second-as-number); when neither parses, the match is
dropped (`none`), not resolved by the default order. -/
theorem inferRegulation_characterization (community : EUCommunityValue) (f s : String)
    (hf : jsParseIntNat f = some (digitsToNat (f.data.takeWhile isDigitChar)))
    (hs : jsParseIntNat s = some (digitsToNat (s.data.takeWhile isDigitChar)))
    (ha : digitsToNat (f.data.takeWhile isDigitChar) ≠ 0)
    (hb : digitsToNat (s.data.takeWhile isDigitChar) ≠ 0) :
    (∀ y, parseEuYear f = some y → parseEuYear s = none →
      inferRegulationYearAndNumber community f s =
        some (y, digitsToNat (s.data.takeWhile isDigitChar))) ∧
    (∀ y, parseEuYear s = some y → parseEuYear f = none →
      inferRegulationYearAndNumber community f s =
        some (y, digitsToNat (f.data.takeWhile isDigitChar))) ∧
    (∀ yf ys, parseEuYear f = some yf → parseEuYear s = some ys →
      inferRegulationYearAndNumber community f s =
        (if community = .CE || community = .CEE || community = .EG ||
            community = .EEG || community = .Euratom then
          some (ys, digitsToNat (f.data.takeWhile isDigitChar))
        else some (yf, digitsToNat (s.data.takeWhile isDigitChar)))) ∧
    (parseEuYear f = none → parseEuYear s = none →
      inferRegulationYearAndNumber community f s = none) := by
  refine ⟨?_, ?_, ?_, ?_⟩
  · intro y hy hn
    unfold inferRegulationYearAndNumber
    rw [hf, hs]
    simp only [ha, hb, hy, hn]
    cases community <;> simp
  · intro y hy hn
    unfold inferRegulationYearAndNumber
    rw [hf, hs]
    simp only [ha, hb, hy, hn]
    cases community <;> simp
  · intro yf ys hyf hys
    unfold inferRegulationYearAndNumber
    rw [hf, hs]
    simp only [ha, hb, hyf, hys]
    cases community <;> simp
  · intro hnf hns
    unfold inferRegulationYearAndNumber
    rw [hf, hs]
    simp only [ha, hb, hnf, hns]
    cases community <;> simp

/-- C7 counterexample: for community `EU` and tokens `500`/`300`
(neither a valid year), the code returns `none` instead of applying the
claimed year-then-number default order. -/
theorem inferRegulation_counterexample :
    inferRegulationYearAndNumber .EU "500" "300" = none := by decide

theorem inferRegulation_witness :
    inferRegulationYearAndNumber .EU "2016" "679" = some (2016, 679) := by
  have h := (inferRegulation_characterization .EU "2016" "679"
    (by decide) (by decide) (by decide) (by decide)).1 2016 (by decide) (by decide)
  simpa using h
/-- C10: `provision_exists` is only ever set after a document resolved,
so it implies `document_exists`; an unparseable citation or an
unresolved document yields both flags false. -/
theorem validate_provision_implies_document (db : LegalDatabase) (citation : String) :
    ((validateCitation db citation).provision_exists = true →
      (validateCitation db citation).document_exists = true) ∧
    ((parseCitation citation).valid = false →
      (validateCitation db citation).document_exists = false ∧
      (validateCitation db citation).provision_exists = false) ∧
    ((parseCitation citation).valid = true →
      resolveDocument db (parseCitation citation) = none →
      (validateCitation db citation).document_exists = false ∧
      (validateCitation db citation).provision_exists = false) := by
  unfold validateCitation
  by_cases hv : (parseCitation citation).valid = false
  · simp [hv]
  · simp only [hv, if_false]
    rcases hres : resolveDocument db (parseCitation citation) with _ | doc
    · simp [hres]
    · simp [hres, hv]

theorem validate_provision_implies_document_witness :
    (validateCitation ⟨[], []⟩ "no citation here").document_exists = false ∧
    (validateCitation ⟨[], []⟩ "no citation here").provision_exists = false :=
  (validate_provision_implies_document ⟨[], []⟩ "no citation here").2.1 (by decide)
/-- C1: the candidate set for section `I.er` contains `art1` (via the
Roman-numeral conversion), and therefore whenever the document the
validator resolves for `Loi du 11 avril 1799, art. I.er` owns a
provision stored under ref `art1`, validation reports
`provision_exists = true`. -/
theorem roman_candidate_validation (db : LegalDatabase) (doc : DocumentRow)
    (hres : resolveDocument db (parseCitation "Loi du 11 avril 1799, art. I.er") = some doc)
    (hprov : ∃ p ∈ db.provisions, p.document_id = doc.id ∧ sqlLower p.provision_ref = "art1") :
    "art1" ∈ provisionCandidates (some "I.er") ∧
    (validateCitation db "Loi du 11 avril 1799, art. I.er").provision_exists = true := by
  constructor
  · decide
  · have hval : (parseCitation "Loi du 11 avril 1799, art. I.er").valid = true := by decide
    have hsec : (parseCitation "Loi du 11 avril 1799, art. I.er").«section» = some "I.er" := by
      decide
    unfold validateCitation
    simp only [hval, Bool.true_eq_false, if_false, hres, hsec]
    have hex : (provisionCandidates (some "I.er")).any (fun c =>
        db.provisions.any (fun p => p.document_id = doc.id && provisionRowMatches p c)) = true := by
      apply List.any_eq_true.mpr
      refine ⟨"art1", by decide, ?_⟩
      apply List.any_eq_true.mpr
      obtain ⟨p, hpmem, hpid, hpref⟩ := hprov
      refine ⟨p, hpmem, ?_⟩
      have hlow : jsLowerStr "art1" = "art1" := by decide
      have : provisionRowMatches p "art1" = true := by
        unfold provisionRowMatches
        rw [hpref, hlow]
        simp
      simp [hpid, this]
    have hemp : ("I.er" : String).isEmpty = false := by decide
    simp [hex, hemp]
theorem roman_candidate_validation_witness :
    "art1" ∈ provisionCandidates (some "I.er") ∧
    (validateCitation
      ⟨[⟨"d1", "Loi du 11 avril 1799", "in_force", some "1799-04-11"⟩],
       [⟨"d1", "art1", "1"⟩]⟩
      "Loi du 11 avril 1799, art. I.er").provision_exists = true :=
  roman_candidate_validation
    ⟨[⟨"d1", "Loi du 11 avril 1799", "in_force", some "1799-04-11"⟩],
     [⟨"d1", "art1", "1"⟩]⟩
    ⟨"d1", "Loi du 11 avril 1799", "in_force", some "1799-04-11"⟩
    (by decide)
    ⟨⟨"d1", "art1", "1"⟩, by decide, rfl, by decide⟩
theorem parseArticle_shape (a t : String) (y : Option Nat) (ty : String) :
    (parseArticle a t y ty).valid = true ∧ (parseArticle a t y ty).«section».isSome ∧
    (parseArticle a t y ty).error = none := by
  unfold parseArticle
  cases h : matchSectionRef (jsTrimL (stripArtDot a.data)) with
  | none => simp [h]
  | some g =>
    obtain ⟨d, sub, para⟩ := g
    simp [h]

theorem parse_error_nonempty (x : List Char) :
    ("Could not parse legal citation: \"" ++ (⟨x⟩ : String) ++ "\"") ≠ "" := by
  intro h
  have := congrArg String.data h
  simp [String.data_append] at this

theorem parseCitationRest_shape (l : List Char) :
    ((parseCitationRest l).valid = true ∧ (parseCitationRest l).«section».isSome ∧
      (parseCitationRest l).error = none) ∨
    ((parseCitationRest l).valid = false ∧ (parseCitationRest l).«section» = none ∧
      ∃ e, (parseCitationRest l).error = some e ∧ e ≠ "") := by
  unfold parseCitationRest
  cases hf : matchFull l with
  | some g =>
    obtain ⟨g1, t, y⟩ := g
    exact Or.inl (parseArticle_shape _ _ _ _)
  | none =>
    cases hs : matchShort l with
    | some g =>
      obtain ⟨g1, t, y⟩ := g
      exact Or.inl (parseArticle_shape _ _ _ _)
    | none =>
      right
      exact ⟨rfl, rfl, _, rfl, parse_error_nonempty l⟩

/-- C6 (amended): every parse result is exactly one of {valid with the
section field present (possibly the empty string) and no error, invalid
with no section and a non-empty error message}; the section is not
always non-empty. -/
theorem parse_citation_dichotomy (s : String) :
    ((parseCitation s).valid = true ∧ (parseCitation s).«section».isSome ∧
      (parseCitation s).error = none) ∨
    ((parseCitation s).valid = false ∧ (parseCitation s).«section» = none ∧
      ∃ e, (parseCitation s).error = some e ∧ e ≠ "") := by
  unfold parseCitation
  cases hlux : matchLux (jsTrim s).data with
  | some p =>
    obtain ⟨titleRaw, articleRaw⟩ := p
    simp only [hlux]
    by_cases hguard : (!(jsTrimL titleRaw).isEmpty && !(jsTrimL articleRaw).isEmpty) = true
    · simp only [hguard, if_true]
      exact Or.inl (parseArticle_shape _ _ _ _)
    · simp only [Bool.not_eq_true] at hguard
      simp only [hguard, Bool.false_eq_true, if_false]
      exact parseCitationRest_shape _
  | none =>
    simp only [hlux]
    exact parseCitationRest_shape _

/-- C6 counterexample: `a art art` parses as valid with an empty
section string, so the claimed invariant (valid implies non-empty
section) fails. -/
theorem parse_citation_dichotomy_counterexample :
    (parseCitation "a art art").valid = true ∧
    (parseCitation "a art art").«section» = some "" := by decide
/-- C2 (amended): content assembly is not mutually exclusive between the
first two categories: alinea blocks and paragraph blocks are cumulative
(alinea first), while `content` requires both of them absent and `p`
requires all three absent.  The six conjuncts cover every article
exhaustively — (alinea, paragraph) present/present, present/absent,
absent/present, and, with both absent, content present, then content
absent with `p` present, then all four absent — so in particular a
truthy `content` or `p` field contributes nothing whenever an alinea or
a paragraph is present. -/
theorem article_content_assembly (article : List (String × JsonVal)) :
    (jsTruthy (lookupField article "alinea") = true →
      jsTruthy (lookupField article "paragraph") = true →
      articleContentParts article =
        blocksOf ((lookupField article "alinea").getD .jnull) ++
        blocksOf ((lookupField article "paragraph").getD .jnull)) ∧
    (jsTruthy (lookupField article "alinea") = true →
      jsTruthy (lookupField article "paragraph") = false →
      articleContentParts article = blocksOf ((lookupField article "alinea").getD .jnull)) ∧
    (jsTruthy (lookupField article "alinea") = false →
      jsTruthy (lookupField article "paragraph") = true →
      articleContentParts article = blocksOf ((lookupField article "paragraph").getD .jnull)) ∧
    (jsTruthy (lookupField article "alinea") = false →
      jsTruthy (lookupField article "paragraph") = false →
      jsTruthy (lookupField article "content") = true →
      articleContentParts article = blocksOf ((lookupField article "content").getD .jnull)) ∧
    (jsTruthy (lookupField article "alinea") = false →
      jsTruthy (lookupField article "paragraph") = false →
      jsTruthy (lookupField article "content") = false →
      jsTruthy (lookupField article "p") = true →
      articleContentParts article = blocksOf ((lookupField article "p").getD .jnull)) ∧
    (jsTruthy (lookupField article "alinea") = false →
      jsTruthy (lookupField article "paragraph") = false →
      jsTruthy (lookupField article "content") = false →
      jsTruthy (lookupField article "p") = false →
      articleContentParts article = []) := by
  refine ⟨?_, ?_, ?_, ?_, ?_, ?_⟩
  · intro ha hp
    unfold articleContentParts
    simp [ha, hp]
  · intro ha hp
    unfold articleContentParts
    simp [ha, hp]
  · intro ha hp
    unfold articleContentParts
    simp [ha, hp]
  · intro ha hp hc
    unfold articleContentParts
    simp [ha, hp, hc]
  · intro ha hp hc hpn
    unfold articleContentParts
    simp [ha, hp, hc, hpn]
  · intro ha hp hc hpn
    unfold articleContentParts
    simp [ha, hp, hc, hpn]

/-- C2 counterexample: an article carrying both an alinea (`A`) and a
paragraph (`B`) emits the provision content `A\n\nB` — the paragraph
block is included, contradicting alinea-only assembly. -/
theorem article_content_assembly_counterexample :
    (processArticle [("num", JsonVal.str "Art. 5."), ("alinea", JsonVal.arr [JsonVal.str "A"]),
        ("paragraph", JsonVal.arr [JsonVal.str "B"])] none).map ParsedProvision.content =
      some "A\n\nB" ∧ ("A\n\nB" : String) ≠ "A" := by
  exact ⟨rfl, by decide⟩

theorem article_content_assembly_witness :
    articleContentParts [("num", JsonVal.str "Art. 5."), ("alinea", JsonVal.arr [JsonVal.str "A"]),
        ("paragraph", JsonVal.arr [JsonVal.str "B"])] =
      blocksOf ((lookupField [("num", JsonVal.str "Art. 5."),
          ("alinea", JsonVal.arr [JsonVal.str "A"]),
          ("paragraph", JsonVal.arr [JsonVal.str "B"])] "alinea").getD .jnull) ++
      blocksOf ((lookupField [("num", JsonVal.str "Art. 5."),
          ("alinea", JsonVal.arr [JsonVal.str "A"]),
          ("paragraph", JsonVal.arr [JsonVal.str "B"])] "paragraph").getD .jnull) :=
  (article_content_assembly _).1 rfl rfl
/-- C3 counterexample: the constructed regulation citation with year
2016 and number 16 does not round-trip: the two-digit number token 16
itself parses as a valid year (pivot expansion), so the extractor emits
`regulation:2016/2016`. -/
theorem eu_roundtrip_counterexample :
    (extractEUReferencesFromText "règlement (UE) n° 16/2016").map
        ExtractedEUReference.eu_document_id = ["regulation:2016/2016"] ∧
    ("regulation:2016/2016" : String) ≠ "regulation:2016/16" := by
  exact ⟨rfl, by decide⟩

/-- C5 counterexample: `Loi A, art. art3` is itself a canonical
full-style output (it is the full format of parsing
`Loi A, article artart3`), yet parsing and re-formatting it yields
`Loi A, art. 3`: the parser strips the `art` prefix of the pinpoint
token. -/
theorem citation_roundtrip_counterexample :
    formatCitation (parseCitation "Loi A, article artart3") CitationFormat.full =
      "Loi A, art. art3" ∧
    formatCitation (parseCitation "Loi A, art. art3") CitationFormat.full =
      "Loi A, art. 3" ∧
    ("Loi A, art. 3" : String) ≠ "Loi A, art. art3" := by
  exact ⟨by decide, by decide, by decide⟩
theorem jsIsSpace_cases (c : Char) (h : jsIsSpace c = true) :
    c = ' ' ∨ c = '\t' ∨ c = '\n' ∨ c = '\r' ∨ c = '\x0b' ∨ c = '\x0c' ∨ c = ' ' ∨ c = ' ' ∨ c = ' ' ∨ c = '﻿' := by
  simp only [jsIsSpace, Bool.or_eq_true, decide_eq_true_eq] at h
  rcases h with ((((((((h|h)|h)|h)|h)|h)|h)|h)|h)|h
  · exact Or.inl (Char.ext h)
  · exact Or.inr (Or.inl (Char.ext h))
  · exact Or.inr (Or.inr (Or.inl (Char.ext h)))
  · exact Or.inr (Or.inr (Or.inr (Or.inl (Char.ext h))))
  · exact Or.inr (Or.inr (Or.inr (Or.inr (Or.inl (Char.ext h)))))
  · exact Or.inr (Or.inr (Or.inr (Or.inr (Or.inr (Or.inl (Char.ext h))))))
  · exact Or.inr (Or.inr (Or.inr (Or.inr (Or.inr (Or.inr (Or.inl (Char.ext h)))))))
  · exact Or.inr (Or.inr (Or.inr (Or.inr (Or.inr (Or.inr (Or.inr (Or.inl (Char.ext h))))))))
  · exact Or.inr (Or.inr (Or.inr (Or.inr (Or.inr (Or.inr (Or.inr (Or.inr (Or.inl (Char.ext h)))))))))
  · exact Or.inr (Or.inr (Or.inr (Or.inr (Or.inr (Or.inr (Or.inr (Or.inr (Or.inr (Char.ext h)))))))))

theorem ws_not_class (c : Char) (h : jsIsSpace c = true) : articleClassChar c = false := by
  rcases jsIsSpace_cases c h with h2|h2|h2|h2|h2|h2|h2|h2|h2|h2 <;> (subst h2; decide)

theorem class_not_ws (c : Char) (h : articleClassChar c = true) : jsIsSpace c = false := by
  cases hws : jsIsSpace c
  · rfl
  · rw [ws_not_class c hws] at h
    exact absurd h (by simp)

theorem class_ne_comma (c : Char) (h : articleClassChar c = true) : c ≠ ',' := by
  intro hc
  rw [hc] at h
  exact absurd h (by decide)

theorem ws_ne_comma (c : Char) (h : jsIsSpace c = true) : c ≠ ',' := by
  intro hc
  rw [hc] at h
  exact absurd h (by decide)

theorem jsToLower_letter_ne_comma (c p : Char) (hp : jsToLower p ≠ ',')
    (h : ciEq c p = true) : c ≠ ',' := by
  intro hc
  subst hc
  simp only [ciEq, decide_eq_true_eq] at h
  exact hp (h.symm.trans (show jsToLower ',' = ',' from rfl) ▸ rfl)

theorem downTries_sound {α : Type} (f : Nat → Option α) (n : Nat) (x : α)
    (h : downTries f n = some x) : ∃ k, k ≤ n ∧ f k = some x := by
  induction n with
  | zero => exact ⟨0, le_refl 0, h⟩
  | succ n ih =>
    unfold downTries at h
    cases hf : f (n + 1) with
    | some y =>
      rw [hf] at h
      exact ⟨n + 1, le_refl _, hf.trans h⟩
    | none =>
      rw [hf] at h
      obtain ⟨k, hk, hfk⟩ := ih h
      exact ⟨k, Nat.le_succ_of_le hk, hfk⟩

theorem take_of_takeWhile (q : Char → Bool) (l : List Char) :
    ∀ k, k ≤ (l.takeWhile q).length → ∀ c ∈ l.take k, q c = true := by
  induction l with
  | nil => intro k _ c hc; simp at hc
  | cons a t ih =>
    intro k hk c hc
    by_cases hq : q a
    · rw [List.takeWhile_cons, if_pos hq] at hk
      cases k with
      | zero => simp at hc
      | succ k =>
        rw [List.take_succ_cons] at hc
        rcases List.mem_cons.mp hc with h | h
        · rw [h]; exact hq
        · exact ih k (by simpa using hk) c h
    · rw [List.takeWhile_cons, if_neg hq] at hk
      simp only [List.length_nil, Nat.le_zero] at hk
      subst hk
      simp at hc

theorem luxKwTail_sound (l g : List Char) (h : luxKwTail l = some g) :
    ∃ w, l = w ++ g ∧ (∀ c ∈ w, jsIsSpace c = true) ∧ g ≠ [] ∧
      (∀ c ∈ g, articleClassChar c = true) := by
  unfold luxKwTail at h
  by_cases he : (l.dropWhile jsIsSpace).isEmpty
  · simp [he] at h
  · rw [if_neg he] at h
    by_cases ha : (l.dropWhile jsIsSpace).all articleClassChar
    · rw [if_pos ha] at h
      simp only [Option.some.injEq] at h
      subst h
      refine ⟨l.takeWhile jsIsSpace, (List.takeWhile_append_dropWhile _ _).symm, ?_, ?_, ?_⟩
      · intro c hc
        exact List.mem_takeWhile_imp hc
      · intro hnil
        rw [hnil] at he
        exact he rfl
      · intro c hc
        exact List.all_eq_true.mp ha c hc
    · rw [if_neg ha] at h
      exact absurd h (by simp)
theorem ciStrip_sound (pat : List Char) :
    ∀ (l r : List Char), ciStrip pat l = some r →
    ∃ m, l = m ++ r ∧ (∀ c ∈ m, ∃ p ∈ pat, ciEq c p = true) := by
  induction pat with
  | nil =>
    intro l r h
    simp only [ciStrip, Option.some.injEq] at h
    exact ⟨[], by simp [h], by simp⟩
  | cons p ps ih =>
    intro l r h
    cases l with
    | nil => simp [ciStrip] at h
    | cons c cs =>
      simp only [ciStrip] at h
      by_cases hc : ciEq c p
      · rw [if_pos hc] at h
        obtain ⟨m, hm, hall⟩ := ih cs r h
        refine ⟨c :: m, by simp [hm], ?_⟩
        intro x hx
        rcases List.mem_cons.mp hx with hx | hx
        · exact ⟨p, List.mem_cons_self _ _, hx ▸ hc⟩
        · obtain ⟨q, hq, hcq⟩ := hall x hx
          exact ⟨q, List.mem_cons_of_mem _ hq, hcq⟩
      · simp [if_neg hc] at h

theorem kw_chars_ne_comma (pat : List Char)
    (hpat : ∀ p ∈ pat, jsToLower p ≠ ',') (m : List Char)
    (hall : ∀ c ∈ m, ∃ p ∈ pat, ciEq c p = true) : ∀ c ∈ m, c ≠ ',' := by
  intro c hc
  obtain ⟨p, hp, hcp⟩ := hall c hc
  exact jsToLower_letter_ne_comma c p (hpat p hp) hcp

theorem luxKwArt_sound (r g : List Char) (h : luxKwArt r = some g) :
    ∃ d w, r = d ++ w ++ g ∧ (∀ c ∈ d, c = '.') ∧ (∀ c ∈ w, jsIsSpace c = true) ∧
      g ≠ [] ∧ (∀ c ∈ g, articleClassChar c = true) := by
  unfold luxKwArt at h
  split at h
  next r2 =>
    split at h
    next g' htail =>
      simp only [Option.some.injEq] at h
      subst h
      obtain ⟨w, hw, hwall, hgne, hgall⟩ := luxKwTail_sound r2 g' htail
      exact ⟨['.'], w, by simp [hw], by simp, hwall, hgne, hgall⟩
    next _ =>
      obtain ⟨w, hw, hwall, hgne, hgall⟩ := luxKwTail_sound _ g h
      exact ⟨[], w, by simpa using hw, by simp, hwall, hgne, hgall⟩
  next _ =>
    obtain ⟨w, hw, hwall, hgne, hgall⟩ := luxKwTail_sound _ g h
    exact ⟨[], w, by simpa using hw, by simp, hwall, hgne, hgall⟩

theorem luxKw_sound (l g : List Char) (h : luxKw l = some g) :
    ∃ k w, l = k ++ w ++ g ∧ (∀ c ∈ k, c ≠ ',') ∧ (∀ c ∈ w, jsIsSpace c = true) ∧
      g ≠ [] ∧ (∀ c ∈ g, articleClassChar c = true) := by
  unfold luxKw at h
  split at h
  next g' hvia =>
    simp only [Option.some.injEq] at h
    subst h
    split at hvia
    next r hstrip =>
      obtain ⟨m, hm, hmall⟩ := ciStrip_sound _ l r hstrip
      obtain ⟨w, hw, hwall, hgne, hgall⟩ := luxKwTail_sound r g' hvia
      exact ⟨m, w, by rw [hm, hw, List.append_assoc],
        kw_chars_ne_comma _ (by decide) m hmall, hwall, hgne, hgall⟩
    next => exact absurd hvia (by simp)
  next hvia =>
    split at h
    next r hstrip =>
      obtain ⟨m, hm, hmall⟩ := ciStrip_sound _ l r hstrip
      obtain ⟨d, w, hr, hdall, hwall, hgne, hgall⟩ := luxKwArt_sound r g h
      refine ⟨m ++ d, w, ?_, ?_, hwall, hgne, hgall⟩
      · rw [hm, hr]
        simp
      · intro c hc
        rcases List.mem_append.mp hc with hc | hc
        · exact kw_chars_ne_comma _ (by decide) m hmall c hc
        · rw [hdall c hc]
          decide
    next => exact absurd h (by simp)
theorem luxTail_sound (R g : List Char) (h : luxTail R = some g) :
    ∀ c ∈ R.drop 1, c ≠ ',' := by
  unfold luxTail at h
  split at h
  next g' hcomma =>
    simp only [Option.some.injEq] at h
    subst h
    unfold luxTailComma at hcomma
    split at hcomma
    next r =>
      obtain ⟨k, hk, hfk⟩ := downTries_sound _ _ _ hcomma
      obtain ⟨kw, w, hdecomp, hkne, hwall, hgne, hgall⟩ := luxKw_sound _ _ hfk
      intro c hc
      have hcr : c ∈ r := by simpa using hc
      rw [← List.take_append_drop k r] at hcr
      rcases List.mem_append.mp hcr with hc1 | hc2
      · exact ws_ne_comma c (take_of_takeWhile jsIsSpace r k hk c hc1)
      · rw [hdecomp] at hc2
        rcases List.mem_append.mp hc2 with hc3 | hc4
        · rcases List.mem_append.mp hc3 with hc5 | hc6
          · exact hkne c hc5
          · exact ws_ne_comma c (hwall c hc6)
        · exact class_ne_comma c (hgall c hc4)
    next => exact absurd hcomma (by simp)
  next hcomma =>
    split at h
    next => exact absurd h (by simp)
    next w hw =>
      obtain ⟨j, hj, hfj⟩ := downTries_sound _ _ _ h
      obtain ⟨kw, wsp, hdecomp, hkne, hwall, hgne, hgall⟩ := luxKw_sound _ _ hfj
      intro c hc
      have hcR : c ∈ R := List.mem_of_mem_drop hc
      rw [← List.take_append_drop (j + 1) R] at hcR
      rcases List.mem_append.mp hcR with hc1 | hc2
      · have hle : j + 1 ≤ (R.takeWhile jsIsSpace).length := by omega
        exact ws_ne_comma c (take_of_takeWhile jsIsSpace R (j + 1) hle c hc1)
      · rw [hdecomp] at hc2
        rcases List.mem_append.mp hc2 with hc3 | hc4
        · rcases List.mem_append.mp hc3 with hc5 | hc6
          · exact hkne c hc5
          · exact ws_ne_comma c (hwall c hc6)
        · exact class_ne_comma c (hgall c hc4)

theorem luxTail_none_of_comma (Q M : List Char) (hQ : Q ≠ []) :
    luxTail (Q ++ ',' :: M) = none := by
  cases h : luxTail (Q ++ ',' :: M) with
  | none => rfl
  | some g =>
    exfalso
    apply luxTail_sound _ _ h ',' _ rfl
    cases Q with
    | nil => exact absurd rfl hQ
    | cons q Q' =>
      simp [List.mem_append]
theorem dropWhile_class_self (A : List Char) (hcls : A.all articleClassChar = true) :
    A.dropWhile jsIsSpace = A := by
  apply dropWhile_eq_self_of_head
  intro c hc
  cases A with
  | nil => simp at hc
  | cons a t =>
    simp only [List.head?_cons, Option.some.injEq] at hc
    rw [← hc]
    exact class_not_ws a (List.all_eq_true.mp hcls a (List.mem_cons_self _ _))

theorem luxKwTail_space_class (A : List Char) (hne : A ≠ [])
    (hcls : A.all articleClassChar = true) : luxKwTail (' ' :: A) = some A := by
  unfold luxKwTail
  have h1 : (' ' :: A).dropWhile jsIsSpace = A := by
    rw [List.dropWhile_cons, if_pos (by decide)]
    exact dropWhile_class_self A hcls
  rw [h1]
  have hemp : A.isEmpty = false := by
    cases A
    · exact absurd rfl hne
    · rfl
  simp [hemp, hcls]

theorem luxKw_art_dot_space (A : List Char) (hne : A ≠ [])
    (hcls : A.all articleClassChar = true) :
    luxKw ('a' :: 'r' :: 't' :: '.' :: ' ' :: A) = some A := by
  unfold luxKw
  have e1 : ciStrip ['a','r','t','i','c','l','e'] ('a' :: 'r' :: 't' :: '.' :: ' ' :: A) =
      none := rfl
  have e2 : ciStrip ['a','r','t'] ('a' :: 'r' :: 't' :: '.' :: ' ' :: A) =
      some ('.' :: ' ' :: A) := rfl
  rw [e1, e2]
  show (match luxKwTail (' ' :: A) with
        | some g => some g
        | none => luxKwTail ('.' :: ' ' :: A)) = some A
  rw [luxKwTail_space_class A hne hcls]

theorem luxTail_sep_some (A : List Char) (hne : A ≠ [])
    (hcls : A.all articleClassChar = true) :
    luxTail (',' :: ' ' :: 'a' :: 'r' :: 't' :: '.' :: ' ' :: A) = some A := by
  have hcomma : luxTailComma (',' :: ' ' :: 'a' :: 'r' :: 't' :: '.' :: ' ' :: A) = some A := by
    unfold luxTailComma
    show downTries
      (fun k => luxKw ((' ' :: 'a' :: 'r' :: 't' :: '.' :: ' ' :: A).drop k))
      ((' ' :: 'a' :: 'r' :: 't' :: '.' :: ' ' :: A).takeWhile jsIsSpace).length = some A
    have hw : ((' ' :: 'a' :: 'r' :: 't' :: '.' :: ' ' :: A).takeWhile jsIsSpace).length = 1 :=
      rfl
    rw [hw]
    unfold downTries
    have hf1 : luxKw ((' ' :: 'a' :: 'r' :: 't' :: '.' :: ' ' :: A).drop 1) = some A := by
      show luxKw ('a' :: 'r' :: 't' :: '.' :: ' ' :: A) = some A
      exact luxKw_art_dot_space A hne hcls
    rw [hf1]
  unfold luxTail
  rw [hcomma]

theorem luxGo_main (A : List Char) (hne : A ≠ []) (hcls : A.all articleClassChar = true) :
    ∀ (R ttl : List Char), R ≠ [] → (∀ c ∈ R, isDotChar c = true) →
    luxGo ttl (R ++ ',' :: ' ' :: 'a' :: 'r' :: 't' :: '.' :: ' ' :: A) =
      some (ttl ++ R, A) := by
  intro R
  induction R with
  | nil => intro ttl h _; exact absurd rfl h
  | cons c Q ih =>
    intro ttl _ hdot
    show luxGo ttl (c :: (Q ++ ',' :: ' ' :: 'a' :: 'r' :: 't' :: '.' :: ' ' :: A)) = _
    unfold luxGo
    rw [if_neg (by rw [hdot c (List.mem_cons_self _ _)]; simp)]
    cases Q with
    | nil =>
      simp only [List.nil_append]
      rw [luxTail_sep_some A hne hcls]
    | cons q Q' =>
      rw [luxTail_none_of_comma (q :: Q') _ (by simp)]
      rw [ih (ttl ++ [c]) (by simp) (fun x hx => hdot x (List.mem_cons_of_mem _ hx))]
      simp

theorem matchLux_canonical (T A : List Char) (hTne : T ≠ [])
    (hdot : ∀ c ∈ T, isDotChar c = true) (hne : A ≠ [])
    (hcls : A.all articleClassChar = true) :
    matchLux (T ++ ',' :: ' ' :: 'a' :: 'r' :: 't' :: '.' :: ' ' :: A) = some (T, A) := by
  unfold matchLux
  rw [luxGo_main A hne hcls T [] hTne hdot]
  simp
theorem length_dropWhile_le' (q : Char → Bool) (l : List Char) :
    (l.dropWhile q).length ≤ l.length := by
  induction l with
  | nil => simp
  | cons c t ih =>
    rw [List.dropWhile_cons]
    by_cases h : q c
    · rw [if_pos h]
      exact Nat.le_succ_of_le ih
    · rw [if_neg h]

theorem dropWhile_eq_self_of_length (q : Char → Bool) (l : List Char)
    (h : (l.dropWhile q).length = l.length) : l.dropWhile q = l := by
  cases l with
  | nil => rfl
  | cons c t =>
    rw [List.dropWhile_cons] at h ⊢
    by_cases hq : q c
    · rw [if_pos hq] at h
      have := length_dropWhile_le' q t
      simp only [List.length_cons] at h
      omega
    · rw [if_neg hq]

theorem trim_ends (T : List Char) (htrim : jsTrimL T = T) :
    T.dropWhile jsIsSpace = T ∧ T.reverse.dropWhile jsIsSpace = T.reverse := by
  have hlen : (jsTrimL T).length = T.length := by rw [htrim]
  have hlen2 : (jsTrimL T).length ≤ (T.dropWhile jsIsSpace).length := by
    unfold jsTrimL
    rw [List.length_reverse]
    calc ((T.dropWhile jsIsSpace).reverse.dropWhile jsIsSpace).length
        ≤ (T.dropWhile jsIsSpace).reverse.length := length_dropWhile_le' _ _
      _ = (T.dropWhile jsIsSpace).length := List.length_reverse _
  have hlen3 : (T.dropWhile jsIsSpace).length ≤ T.length := length_dropWhile_le' _ _
  have heq1 : T.dropWhile jsIsSpace = T :=
    dropWhile_eq_self_of_length _ _ (by omega)
  refine ⟨heq1, ?_⟩
  have h2 : (T.reverse.dropWhile jsIsSpace).reverse = T := by
    conv_rhs => rw [← htrim]
    unfold jsTrimL
    rw [heq1]
  have := congrArg List.reverse h2
  rwa [List.reverse_reverse] at this

theorem jsTrimL_of_ends (X : List Char) (h1 : X.dropWhile jsIsSpace = X)
    (h2 : X.reverse.dropWhile jsIsSpace = X.reverse) : jsTrimL X = X := by
  unfold jsTrimL
  rw [h1, h2, List.reverse_reverse]

theorem dropWhile_cons_neg (q : Char → Bool) (c : Char) (t : List Char)
    (h : q c = false) : (c :: t).dropWhile q = c :: t := by
  rw [List.dropWhile_cons, h]
  simp

theorem canonical_trimmed (T A : List Char) (hTne : T ≠ []) (htrim : jsTrimL T = T)
    (hne : A ≠ []) (hcls : A.all articleClassChar = true) :
    jsTrimL (T ++ ',' :: ' ' :: 'a' :: 'r' :: 't' :: '.' :: ' ' :: A) =
      T ++ ',' :: ' ' :: 'a' :: 'r' :: 't' :: '.' :: ' ' :: A := by
  obtain ⟨hh, ht⟩ := trim_ends T htrim
  apply jsTrimL_of_ends
  · cases T with
    | nil => exact absurd rfl hTne
    | cons c T' =>
      have hcws : jsIsSpace c = false := by
        rw [List.dropWhile_cons] at hh
        by_cases hq : jsIsSpace c
        · rw [if_pos hq] at hh
          have := congrArg List.length hh
          have hle := length_dropWhile_le' jsIsSpace T'
          simp at this
          omega
        · simpa using hq
      exact dropWhile_cons_neg _ _ _ hcws
  · rw [List.reverse_append]
    cases hA : A.reverse with
    | nil =>
      have := congrArg List.reverse hA
      rw [List.reverse_reverse] at this
      exact absurd this hne
    | cons a rA =>
      have haA : a ∈ A := by
        have : a ∈ A.reverse := by rw [hA]; exact List.mem_cons_self _ _
        exact List.mem_reverse.mp this
      have : jsIsSpace a = false :=
        class_not_ws a (List.all_eq_true.mp hcls a haA)
      rw [show (',' :: ' ' :: 'a' :: 'r' :: 't' :: '.' :: ' ' :: A).reverse =
          A.reverse ++ [' ', '.', 't', 'r', 'a', ' ', ','] from by simp]
      rw [hA]
      exact dropWhile_cons_neg _ _ _ this
theorem takeWhile_drop_append (q : Char → Bool) (l : List Char) :
    l.takeWhile q ++ l.drop (l.takeWhile q).length = l := by
  induction l with
  | nil => rfl
  | cons c t ih =>
    rw [List.takeWhile_cons]
    by_cases h : q c
    · rw [if_pos h]
      simp only [List.length_cons, List.drop_succ_cons, List.cons_append]
      rw [ih]
    · rw [if_neg h]
      simp

theorem sectionRefTail_sound (r : List Char) (p : Option Char)
    (h : sectionRefTail r = some p) :
    r = (match p with | some c => ['(', c, ')'] | none => []) := by
  unfold sectionRefTail at h
  split at h
  · simp only [Option.some.injEq] at h
    subst h
    rfl
  next c r2 =>
    split at h
    · simp only [Option.some.injEq] at h
      subst h
      simp_all
    · exact absurd h (by simp)
  · exact absurd h (by simp)

theorem matchSectionRefG2_sound (rest : List Char) (g2 r2 : List Char)
    (h : matchSectionRefG2 rest = some (g2, r2)) :
    rest = '(' :: (g2 ++ ')' :: r2) ∧ g2 ≠ [] := by
  unfold matchSectionRefG2 at h
  split at h
  next r =>
    split at h
    · exact absurd h (by simp)
    next hne =>
      split at h
      next r2' hdrop =>
        simp only [Option.some.injEq, Prod.mk.injEq] at h
        obtain ⟨hg2, hr2⟩ := h
        subst hg2
        subst hr2
        constructor
        · show '(' :: r = '(' :: (r.takeWhile isDigitChar ++ ')' :: r2')
          congr 1
          conv_lhs => rw [← takeWhile_drop_append isDigitChar r]
          rw [hdrop]
        · intro hg
          rw [hg] at hne
          exact hne rfl
      · exact absurd h (by simp)
  · exact absurd h (by simp)

theorem matchSectionRef_sound (A : List Char) (d : List Char) (sub : Option (List Char))
    (para : Option Char) (h : matchSectionRef A = some (d, sub, para)) :
    d ≠ [] ∧
    A = d ++ subPartL sub ++ paraPartL para ∧
    (∀ g, sub = some g → g ≠ []) := by
  unfold matchSectionRef at h
  split at h
  · exact absurd h (by simp)
  next hdne =>
    have hd : A.takeWhile isDigitChar ++ A.drop (A.takeWhile isDigitChar).length = A :=
      takeWhile_drop_append isDigitChar A
    have hdne' : A.takeWhile isDigitChar ≠ [] := by
      intro hg
      rw [hg] at hdne
      exact hdne rfl
    split at h
    next g2 r2 hg2 =>
      obtain ⟨hrest, hg2ne⟩ := matchSectionRefG2_sound _ _ _ hg2
      split at h
      next p htail =>
        simp only [Option.some.injEq, Prod.mk.injEq] at h
        obtain ⟨h1, h2, h3⟩ := h
        subst h1
        subst h2
        subst h3
        have hr2 := sectionRefTail_sound _ _ htail
        refine ⟨hdne', ?_, fun g hg => by injection hg with hgg; exact hgg ▸ hg2ne⟩
        cases p with
        | none =>
          show A = (List.takeWhile isDigitChar A ++ ('(' :: (g2 ++ [')']))) ++ []
          have hr2x : r2 = [] := hr2
          conv_lhs => rw [← hd, hrest, hr2x]
          simp
        | some c =>
          show A = (List.takeWhile isDigitChar A ++ ('(' :: (g2 ++ [')']))) ++ ['(', c, ')']
          have hr2x : r2 = ['(', c, ')'] := hr2
          conv_lhs => rw [← hd, hrest, hr2x]
          simp
      next htail =>
        split at h
        next p htail2 =>
          simp only [Option.some.injEq, Prod.mk.injEq] at h
          obtain ⟨h1, h2, h3⟩ := h
          subst h1
          subst h2
          subst h3
          have hr := sectionRefTail_sound _ _ htail2
          refine ⟨hdne', ?_, fun g hg => by simp at hg⟩
          cases p with
          | none =>
            show A = (List.takeWhile isDigitChar A ++ []) ++ []
            have hrx : A.drop (A.takeWhile isDigitChar).length = [] := hr
            conv_lhs => rw [← hd, hrx]
            simp
          | some c =>
            show A = (List.takeWhile isDigitChar A ++ []) ++ ['(', c, ')']
            have hrx : A.drop (A.takeWhile isDigitChar).length = ['(', c, ')'] := hr
            conv_lhs => rw [← hd, hrx]
            simp
        · exact absurd h (by simp)
    next hg2 =>
      split at h
      next p htail2 =>
        simp only [Option.some.injEq, Prod.mk.injEq] at h
        obtain ⟨h1, h2, h3⟩ := h
        subst h1
        subst h2
        subst h3
        have hr := sectionRefTail_sound _ _ htail2
        refine ⟨hdne', ?_, fun g hg => by simp at hg⟩
        cases p with
        | none =>
          show A = (List.takeWhile isDigitChar A ++ []) ++ []
          have hrx : A.drop (A.takeWhile isDigitChar).length = [] := hr
          conv_lhs => rw [← hd, hrx]
          simp
        | some c =>
          show A = (List.takeWhile isDigitChar A ++ []) ++ ['(', c, ')']
          have hrx : A.drop (A.takeWhile isDigitChar).length = ['(', c, ')'] := hr
          conv_lhs => rw [← hd, hrx]
          simp
      · exact absurd h (by simp)
theorem jsTrimL_A_of_class (A : List Char) (hne : A ≠ [])
    (hcls : A.all articleClassChar = true) : jsTrimL A = A := by
  apply jsTrimL_of_ends
  · exact dropWhile_class_self A hcls
  · cases hA : A.reverse with
    | nil =>
      have := congrArg List.reverse hA
      rw [List.reverse_reverse] at this
      exact absurd this hne
    | cons a rA =>
      have haA : a ∈ A := List.mem_reverse.mp (hA ▸ List.mem_cons_self a rA)
      exact dropWhile_cons_neg _ _ _ (class_not_ws a (List.all_eq_true.mp hcls a haA))

theorem formatFull_parseArticle (T A : List Char) (y : Option Nat)
    (hstyle : luxStyleTest ⟨T⟩ = true) (hTne : T ≠ []) (htrim : jsTrimL T = T)
    (hne : A ≠ []) (hcls : A.all articleClassChar = true)
    (hart : ciStrip ['a','r','t'] A = none)
    (hXtrim : jsTrimL (T ++ ',' :: ' ' :: 'a' :: 'r' :: 't' :: '.' :: ' ' :: A) =
      T ++ ',' :: ' ' :: 'a' :: 'r' :: 't' :: '.' :: ' ' :: A) :
    formatCitation (parseArticle ⟨A⟩ ⟨T⟩ y "statute") CitationFormat.full =
      ⟨T ++ ',' :: ' ' :: 'a' :: 'r' :: 't' :: '.' :: ' ' :: A⟩ := by
  have htrimA : jsTrimL A = A := jsTrimL_A_of_class A hne hcls
  have hstrip : stripArtDot A = A := by
    unfold stripArtDot
    rw [hart]
  have hs : jsTrimL (stripArtDot (String.mk A).data) = A := by
    show jsTrimL (stripArtDot A) = A
    rw [hstrip]
    exact htrimA
  have hTtr : jsTrim (⟨T⟩ : String) = ⟨T⟩ := congrArg String.mk htrim
  have hTemp : (⟨T⟩ : String).isEmpty = false := by
    rw [← Bool.not_eq_true, String.isEmpty_iff]
    intro hc
    exact hTne (congrArg String.data hc)
  have hv : (decide ((true : Bool) = false)) = false := by decide
  have hfinal : jsTrim ((⟨T⟩ : String) ++ ", art. " ++ ⟨A⟩) =
      ⟨T ++ ',' :: ' ' :: 'a' :: 'r' :: 't' :: '.' :: ' ' :: A⟩ := by
    have hdata : ((⟨T⟩ : String) ++ ", art. " ++ ⟨A⟩).data =
        T ++ ',' :: ' ' :: 'a' :: 'r' :: 't' :: '.' :: ' ' :: A := by
      rw [String.data_append, String.data_append]
      show T ++ [',', ' ', 'a', 'r', 't', '.', ' '] ++ A = _
      simp
    show (⟨jsTrimL ((⟨T⟩ : String) ++ ", art. " ++ ⟨A⟩).data⟩ : String) = _
    rw [hdata, hXtrim]
  unfold parseArticle
  simp only [hs]
  cases hsr : matchSectionRef A with
  | none =>
    have hA0 : (decide ((⟨A⟩ : String) = "")) = false :=
      decide_eq_false (fun hc => hne (congrArg String.data hc))
    unfold formatCitation
    simp only [hTtr, Option.map_some', Option.getD_some, hA0, hv, Bool.or_self,
      Bool.false_eq_true, if_false, hTemp, Bool.not_false, hstyle, Bool.true_and,
      if_true, buildPinpoint]
    exact hfinal
  | some g =>
    obtain ⟨d, sub, para⟩ := g
    obtain ⟨hdne, hdecomp, hsubne⟩ := matchSectionRef_sound A d sub para hsr
    have hd0 : (decide ((⟨d⟩ : String) = "")) = false :=
      decide_eq_false (fun hc => hdne (congrArg String.data hc))
    have hpd : (buildPinpoint
        { valid := true, type := "statute", title := some (⟨T⟩ : String), year := y,
          «section» := some ⟨d⟩, subsection := sub.map (fun x => (⟨x⟩ : String)),
          paragraph := para.map (fun c => (⟨[c]⟩ : String)) }).data = A := by
      unfold buildPinpoint
      cases sub with
      | none =>
        cases para with
        | none =>
          simp only [Option.map_none', Option.getD_some]
          rw [hdecomp]
          simp [subPartL, paraPartL]
        | some c =>
          have hc0 : (⟨[c]⟩ : String).isEmpty = false := by
            rw [← Bool.not_eq_true, String.isEmpty_iff]
            intro hcx
            exact absurd (congrArg String.data hcx) (by simp)
          simp only [Option.map_some', Option.map_none', Option.getD_some, hc0,
            Bool.false_eq_true, if_false, String.data_append]
          rw [hdecomp]
          simp [subPartL, paraPartL]
      | some g =>
        have hgne : g ≠ [] := hsubne g rfl
        have hg0 : (⟨g⟩ : String).isEmpty = false := by
          rw [← Bool.not_eq_true, String.isEmpty_iff]
          intro hcx
          exact hgne (congrArg String.data hcx)
        cases para with
        | none =>
          simp only [Option.map_some', Option.map_none', Option.getD_some, hg0,
            Bool.false_eq_true, if_false, String.data_append]
          rw [hdecomp]
          simp [subPartL, paraPartL]
        | some c =>
          have hc0 : (⟨[c]⟩ : String).isEmpty = false := by
            rw [← Bool.not_eq_true, String.isEmpty_iff]
            intro hcx
            exact absurd (congrArg String.data hcx) (by simp)
          simp only [Option.map_some', Option.getD_some, hg0, hc0,
            Bool.false_eq_true, if_false, String.data_append]
          rw [hdecomp]
          simp [subPartL, paraPartL]
    have hpin : buildPinpoint
        { valid := true, type := "statute", title := some (⟨T⟩ : String), year := y,
          «section» := some ⟨d⟩, subsection := sub.map (fun x => (⟨x⟩ : String)),
          paragraph := para.map (fun c => (⟨[c]⟩ : String)) } = (⟨A⟩ : String) := by
      rw [← hpd]
    unfold formatCitation
    simp only [hTtr, Option.map_some', Option.getD_some, hd0, hv, Bool.or_self,
      Bool.false_eq_true, if_false, hTemp, Bool.not_false, hstyle, Bool.true_and,
      if_true, hpin]
    exact hfinal
/-- C5. parseCitation "title, art. section" in canonical Luxembourg full
form — trimmed Luxembourg-style title of dot-class characters, article
token of section-class characters that does not itself begin with
`art` — formats back to the exact input in full style. -/
theorem lux_roundtrip (T A : List Char)
    (hstyle : luxStyleTest ⟨T⟩ = true) (hTne : T ≠ []) (htrim : jsTrimL T = T)
    (hdot : ∀ c ∈ T, isDotChar c = true)
    (hne : A ≠ []) (hcls : A.all articleClassChar = true)
    (hart : ciStrip ['a','r','t'] A = none) :
    formatCitation
      (parseCitation ⟨T ++ ',' :: ' ' :: 'a' :: 'r' :: 't' :: '.' :: ' ' :: A⟩)
      CitationFormat.full =
    ⟨T ++ ',' :: ' ' :: 'a' :: 'r' :: 't' :: '.' :: ' ' :: A⟩ := by
  have hXtrim := canonical_trimmed T A hTne htrim hne hcls
  have htrimA : jsTrimL A = A := jsTrimL_A_of_class A hne hcls
  have hTe : T.isEmpty = false := by
    cases T with
    | nil => exact absurd rfl hTne
    | cons c t => rfl
  have hAe : A.isEmpty = false := by
    cases A with
    | nil => exact absurd rfl hne
    | cons c t => rfl
  have hparse : parseCitation ⟨T ++ ',' :: ' ' :: 'a' :: 'r' :: 't' :: '.' :: ' ' :: A⟩ =
      parseArticle ⟨A⟩ ⟨T⟩ ((findYear4Go none T).map digitsToNat) "statute" := by
    have hdat : (jsTrim (⟨T ++ ',' :: ' ' :: 'a' :: 'r' :: 't' :: '.' :: ' ' :: A⟩ :
        String)).data = T ++ ',' :: ' ' :: 'a' :: 'r' :: 't' :: '.' :: ' ' :: A := hXtrim
    unfold parseCitation
    simp only [hdat]
    rw [matchLux_canonical T A hTne hdot hne hcls]
    simp only [htrim, htrimA, hTe, hAe, Bool.not_false, Bool.and_self, if_true]
  rw [hparse]
  exact formatFull_parseArticle T A _ hstyle hTne htrim hne hcls hart hXtrim
/-- Witness: the round-trip at the canonical citation of the spec,
"Loi du 11 avril 1799, art. I.er". -/
theorem lux_roundtrip_witness :
    formatCitation (parseCitation "Loi du 11 avril 1799, art. I.er")
      CitationFormat.full = "Loi du 11 avril 1799, art. I.er" := by
  have h := lux_roundtrip ("Loi du 11 avril 1799".data) ("I.er".data)
    (by decide) (by decide) (by decide) (by decide) (by decide) (by decide) (by decide)
  have hx : (⟨"Loi du 11 avril 1799".data ++
      ',' :: ' ' :: 'a' :: 'r' :: 't' :: '.' :: ' ' :: "I.er".data⟩ : String) =
      "Loi du 11 avril 1799, art. I.er" := by decide
  rw [hx] at h
  exact h
theorem digitsToNat_append (l : List Char) (c : Char) :
    digitsToNat (l ++ [c]) = 10 * digitsToNat l + digitVal c := by
  unfold digitsToNat
  rw [List.foldl_append]
  simp [Nat.mul_comm]

theorem isDigitChar_ofNat (d : Nat) (h : d < 10) :
    isDigitChar (Char.ofNat (48 + d)) = true := by
  interval_cases d <;> decide

theorem digitVal_ofNat (d : Nat) (h : d < 10) :
    digitVal (Char.ofNat (48 + d)) = d := by
  interval_cases d <;> decide

theorem natDigitsAux_spec : ∀ (fuel n : Nat), n ≤ fuel →
    (natDigitsAux (fuel + 1) n).all isDigitChar = true ∧
    digitsToNat (natDigitsAux (fuel + 1) n) = n ∧
    (natDigitsAux (fuel + 1) n).length = Nat.log 10 n + 1 := by
  intro fuel
  induction fuel with
  | zero =>
    intro n hn
    interval_cases n
    refine ⟨by decide, by decide, ?_⟩
    have hl : Nat.log 10 0 = 0 := Nat.log_eq_zero_iff.mpr (Or.inl (by norm_num))
    rw [hl]
    decide
  | succ f ih =>
    intro n hn
    by_cases h10 : n < 10
    · have hx : natDigitsAux (f + 1 + 1) n = [Char.ofNat (48 + n)] := by
        unfold natDigitsAux
        rw [if_pos h10]
      refine ⟨?_, ?_, ?_⟩
      · rw [hx]
        simp [isDigitChar_ofNat n h10]
      · rw [hx]
        show digitsToNat ([] ++ [Char.ofNat (48 + n)]) = n
        rw [digitsToNat_append]
        have : digitsToNat [] = 0 := rfl
        rw [this, digitVal_ofNat n h10]
        omega
      · rw [hx]
        have : Nat.log 10 n = 0 := Nat.log_eq_zero_iff.mpr (Or.inl h10)
        simp [this]
    · push_neg at h10
      have hdiv : n / 10 ≤ f := by
        have h1 : n / 10 < n := Nat.div_lt_self (by omega) (by omega)
        omega
      obtain ⟨iha, ihv, ihl⟩ := ih (n / 10) hdiv
      have hx : natDigitsAux (f + 1 + 1) n =
          natDigitsAux (f + 1) (n / 10) ++ [Char.ofNat (48 + n % 10)] := by
        conv_lhs => rw [natDigitsAux]
        rw [if_neg (by omega)]
      have hm : n % 10 < 10 := Nat.mod_lt n (by omega)
      refine ⟨?_, ?_, ?_⟩
      · rw [hx, List.all_append, iha]
        simp [isDigitChar_ofNat _ hm]
      · rw [hx, digitsToNat_append, ihv, digitVal_ofNat _ hm]
        omega
      · rw [hx, List.length_append, ihl]
        have hlog : Nat.log 10 (n / 10) = Nat.log 10 n - 1 := Nat.log_div_base 10 n
        have hpos : 0 < Nat.log 10 n := Nat.log_pos (by norm_num) h10
        simp only [List.length_cons, List.length_nil]
        omega

theorem natDigits_all (n : Nat) : (natDigits n).all isDigitChar = true :=
  (natDigitsAux_spec n n (Nat.le_refl n)).1

theorem digitsToNat_natDigits (n : Nat) : digitsToNat (natDigits n) = n :=
  (natDigitsAux_spec n n (Nat.le_refl n)).2.1

theorem natDigits_length (n : Nat) : (natDigits n).length = Nat.log 10 n + 1 :=
  (natDigitsAux_spec n n (Nat.le_refl n)).2.2

theorem natDigits_length_four (y : Nat) (h1 : 1000 ≤ y) (h2 : y < 10000) :
    (natDigits y).length = 4 := by
  rw [natDigits_length]
  have : Nat.log 10 y = 3 :=
    Nat.log_eq_of_pow_le_of_lt_pow (by norm_num; omega) (by norm_num; omega)
  omega

theorem natDigits_length_le_four (n : Nat) (h : n < 10000) :
    (natDigits n).length ≤ 4 := by
  rw [natDigits_length]
  rcases Nat.eq_zero_or_pos n with h0 | h0
  · subst h0
    have hl : Nat.log 10 0 = 0 := Nat.log_eq_zero_iff.mpr (Or.inl (by norm_num))
    omega
  · have : Nat.log 10 n < 4 := Nat.log_lt_of_lt_pow (by omega) (by norm_num; omega)
    omega

theorem natDigits_ne_nil (n : Nat) : natDigits n ≠ [] := by
  intro hc
  have := natDigits_length n
  rw [hc] at this
  simp at this

theorem takeWhile_all_eq_self (q : Char → Bool) (l : List Char)
    (h : l.all q = true) : l.takeWhile q = l := by
  induction l with
  | nil => rfl
  | cons c t ih =>
    simp only [List.all_cons, Bool.and_eq_true] at h
    rw [List.takeWhile_cons, if_pos h.1, ih h.2]

theorem jsParseIntNat_natDigits (n : Nat) : jsParseIntNat ⟨natDigits n⟩ = some n := by
  unfold jsParseIntNat
  have hdat : (⟨natDigits n⟩ : String).data = natDigits n := rfl
  rw [hdat, takeWhile_all_eq_self _ _ (natDigits_all n)]
  have hne : (natDigits n).isEmpty = false := by
    cases hx : natDigits n with
    | nil => exact absurd hx (natDigits_ne_nil n)
    | cons c t => rfl
  simp only [hne, Bool.false_eq_true, if_false, digitsToNat_natDigits]

theorem parseEuYear_natDigits_year (y : Nat) (h1 : 1957 ≤ y) (h2 : y ≤ 2100) :
    parseEuYear ⟨natDigits y⟩ = some y := by
  unfold parseEuYear
  rw [jsParseIntNat_natDigits]
  have hlen : (⟨natDigits y⟩ : String).length = 4 := by
    show (natDigits y).length = 4
    exact natDigits_length_four y (by omega) (by omega)
  rw [hlen]
  norm_num
  omega
theorem digit_jsToLower (c : Char) (h : isDigitChar c = true) : jsToLower c = c := by
  unfold isDigitChar at h
  rw [Bool.and_eq_true, decide_eq_true_eq, decide_eq_true_eq] at h
  obtain ⟨h1, h2⟩ := h
  have hA : ¬(('A' : Char) ≤ c) := by
    rw [Char.le_def, UInt32.le_def, BitVec.le_def] at h2 ⊢
    intro hc
    rw [show ('9' : Char).val.toBitVec.toNat = 57 from by decide] at h2
    rw [show ('A' : Char).val.toBitVec.toNat = 65 from by decide] at hc
    omega
  have hL : ¬((0xc0 : UInt32) ≤ c.val) := by
    rw [Char.le_def, UInt32.le_def, BitVec.le_def] at h2
    rw [UInt32.le_def, BitVec.le_def]
    intro hc
    rw [show ('9' : Char).val.toBitVec.toNat = 57 from by decide] at h2
    rw [show (0xc0 : UInt32).toBitVec.toNat = 192 from by decide] at hc
    omega
  unfold jsToLower
  rw [decide_eq_false hA, decide_eq_false hL]
  simp

theorem ciEq_digit_false (c r : Char) (h : isDigitChar c = true)
    (h2 : isDigitChar (jsToLower r) = false) : ciEq c r = false := by
  unfold ciEq
  apply decide_eq_false
  intro hc
  rw [digit_jsToLower c h] at hc
  rw [← hc] at h2
  rw [h] at h2
  exact absurd h2 (by decide)

theorem euScan_nil (mh : Option Char → List Char → Option (EUMatchRaw × Option Char × List Char))
    (fuel : Nat) (p : Option Char) : euScan mh fuel p [] = [] := by
  cases fuel <;> rfl

theorem euScan_cons_some
    (mh : Option Char → List Char → Option (EUMatchRaw × Option Char × List Char))
    (fuel : Nat) (p : Option Char) (c : Char) (rest : List Char)
    (m : EUMatchRaw) (p2 : Option Char) (r2 : List Char)
    (h : mh p (c :: rest) = some (m, p2, r2)) :
    euScan mh (fuel + 1) p (c :: rest) = m :: euScan mh fuel p2 r2 := by
  show (match mh p (c :: rest) with
    | some (m, prev2, rest2) => m :: euScan mh fuel prev2 rest2
    | none => euScan mh fuel (some c) rest) = _
  rw [h]

theorem euScan_cons_none
    (mh : Option Char → List Char → Option (EUMatchRaw × Option Char × List Char))
    (fuel : Nat) (p : Option Char) (c : Char) (rest : List Char)
    (h : mh p (c :: rest) = none) :
    euScan mh (fuel + 1) p (c :: rest) = euScan mh fuel (some c) rest := by
  show (match mh p (c :: rest) with
    | some (m, prev2, rest2) => m :: euScan mh fuel prev2 rest2
    | none => euScan mh fuel (some c) rest) = _
  rw [h]

theorem euScan_none_all
    (mh : Option Char → List Char → Option (EUMatchRaw × Option Char × List Char)) :
    ∀ (fuel : Nat) (p : Option Char) (l : List Char),
    (∀ (p2 : Option Char) (t : List Char), t <:+ l → mh p2 t = none) →
    euScan mh fuel p l = [] := by
  intro fuel
  induction fuel with
  | zero => intro p l h; rfl
  | succ f ih =>
    intro p l h
    cases l with
    | nil => rfl
    | cons c rest =>
      rw [euScan_cons_none mh f p c rest (h p (c :: rest) (List.suffix_refl _))]
      exact ih (some c) rest (fun p2 t ht => h p2 t (ht.trans (List.suffix_cons c rest)))

theorem suffix_append_cases (t l r : List Char) (h : t <:+ l ++ r) :
    t <:+ r ∨ ∃ s, s <:+ l ∧ s ≠ [] ∧ t = s ++ r := by
  induction l with
  | nil => left; simpa using h
  | cons c l2 ih =>
    rw [List.cons_append, List.suffix_cons_iff] at h
    rcases h with h | h
    · right
      exact ⟨c :: l2, List.suffix_refl _, by simp, h⟩
    · rcases ih h with h2 | ⟨s, hs, hsne, ht⟩
      · left; exact h2
      · right
        exact ⟨s, hs.trans (List.suffix_cons c l2), hsne, ht⟩

theorem regMatchHere_nil (p : Option Char) : regMatchHere p [] = none := rfl

theorem dirMatchHere_nil (p : Option Char) : dirMatchHere p [] = none := rfl

theorem regMatchHere_not_r (p : Option Char) (c : Char) (t : List Char)
    (h : ciEq c 'r' = false) : regMatchHere p (c :: t) = none := by
  simp [regMatchHere, h]

theorem dirMatchHere_not_d (p : Option Char) (c : Char) (t : List Char)
    (h : ciEq c 'd' = false) : dirMatchHere p (c :: t) = none := by
  have hx : ciStrip ['d','i','r','e','c','t','i','v','e'] (c :: t) = none := by
    show (if ciEq c 'd' = true then ciStrip ['i','r','e','c','t','i','v','e'] t else none) = none
    rw [h]
    rfl
  simp [dirMatchHere, hx]

theorem regMatchHere_rective (p : Option Char) (rest : List Char) :
    regMatchHere p ('r' :: 'e' :: 'c' :: 't' :: 'i' :: 'v' :: 'e' :: rest) = none := by
  unfold regMatchHere
  cases hw : wordness p
  · rfl
  · rfl
theorem reg_fail_dir_text (D N : List Char) (hD : D.all isDigitChar = true)
    (hN : N.all isDigitChar = true) :
    ∀ (p : Option Char) (t : List Char),
      t <:+ ('d' :: 'i' :: 'r' :: 'e' :: 'c' :: 't' :: 'i' :: 'v' :: 'e' :: ' ' ::
        (D ++ '/' :: (N ++ ['/', 'U', 'E']))) →
      regMatchHere p t = none := by
  intro p t ht
  rw [List.suffix_cons_iff] at ht
  rcases ht with rfl | ht
  · exact regMatchHere_not_r p 'd' _ (by decide)
  rw [List.suffix_cons_iff] at ht
  rcases ht with rfl | ht
  · exact regMatchHere_not_r p 'i' _ (by decide)
  rw [List.suffix_cons_iff] at ht
  rcases ht with rfl | ht
  · exact regMatchHere_rective p _
  rw [List.suffix_cons_iff] at ht
  rcases ht with rfl | ht
  · exact regMatchHere_not_r p 'e' _ (by decide)
  rw [List.suffix_cons_iff] at ht
  rcases ht with rfl | ht
  · exact regMatchHere_not_r p 'c' _ (by decide)
  rw [List.suffix_cons_iff] at ht
  rcases ht with rfl | ht
  · exact regMatchHere_not_r p 't' _ (by decide)
  rw [List.suffix_cons_iff] at ht
  rcases ht with rfl | ht
  · exact regMatchHere_not_r p 'i' _ (by decide)
  rw [List.suffix_cons_iff] at ht
  rcases ht with rfl | ht
  · exact regMatchHere_not_r p 'v' _ (by decide)
  rw [List.suffix_cons_iff] at ht
  rcases ht with rfl | ht
  · exact regMatchHere_not_r p 'e' _ (by decide)
  rw [List.suffix_cons_iff] at ht
  rcases ht with rfl | ht
  · exact regMatchHere_not_r p ' ' _ (by decide)
  rcases suffix_append_cases t D _ ht with ht2 | ⟨s, hs, hsne, rfl⟩
  · rw [List.suffix_cons_iff] at ht2
    rcases ht2 with rfl | ht2
    · exact regMatchHere_not_r p '/' _ (by decide)
    rcases suffix_append_cases t N _ ht2 with ht3 | ⟨s, hs, hsne, rfl⟩
    · rw [List.suffix_cons_iff] at ht3
      rcases ht3 with rfl | ht3
      · exact regMatchHere_not_r p '/' _ (by decide)
      rw [List.suffix_cons_iff] at ht3
      rcases ht3 with rfl | ht3
      · exact regMatchHere_not_r p 'U' _ (by decide)
      rw [List.suffix_cons_iff] at ht3
      rcases ht3 with rfl | ht3
      · exact regMatchHere_not_r p 'E' _ (by decide)
      rw [List.suffix_nil] at ht3
      subst ht3
      exact regMatchHere_nil p
    · obtain ⟨c, s2, rfl⟩ := List.exists_cons_of_ne_nil hsne
      have hc : isDigitChar c = true :=
        List.all_eq_true.mp hN c (hs.subset (List.mem_cons_self c s2))
      exact regMatchHere_not_r p c _ (ciEq_digit_false c 'r' hc (by decide))
  · obtain ⟨c, s2, rfl⟩ := List.exists_cons_of_ne_nil hsne
    have hc : isDigitChar c = true :=
      List.all_eq_true.mp hD c (hs.subset (List.mem_cons_self c s2))
    exact regMatchHere_not_r p c _ (ciEq_digit_false c 'r' hc (by decide))

theorem dir_fail_reg_text (N Y : List Char) (hN : N.all isDigitChar = true)
    (hY : Y.all isDigitChar = true) :
    ∀ (p : Option Char) (t : List Char),
      t <:+ ('r' :: 'è' :: 'g' :: 'l' :: 'e' :: 'm' :: 'e' :: 'n' :: 't' :: ' ' :: '(' ::
        'U' :: 'E' :: ')' :: ' ' :: 'n' :: '°' :: ' ' :: (N ++ '/' :: Y)) →
      dirMatchHere p t = none := by
  intro p t ht
  rw [List.suffix_cons_iff] at ht
  rcases ht with rfl | ht
  · exact dirMatchHere_not_d p 'r' _ (by decide)
  rw [List.suffix_cons_iff] at ht
  rcases ht with rfl | ht
  · exact dirMatchHere_not_d p 'è' _ (by decide)
  rw [List.suffix_cons_iff] at ht
  rcases ht with rfl | ht
  · exact dirMatchHere_not_d p 'g' _ (by decide)
  rw [List.suffix_cons_iff] at ht
  rcases ht with rfl | ht
  · exact dirMatchHere_not_d p 'l' _ (by decide)
  rw [List.suffix_cons_iff] at ht
  rcases ht with rfl | ht
  · exact dirMatchHere_not_d p 'e' _ (by decide)
  rw [List.suffix_cons_iff] at ht
  rcases ht with rfl | ht
  · exact dirMatchHere_not_d p 'm' _ (by decide)
  rw [List.suffix_cons_iff] at ht
  rcases ht with rfl | ht
  · exact dirMatchHere_not_d p 'e' _ (by decide)
  rw [List.suffix_cons_iff] at ht
  rcases ht with rfl | ht
  · exact dirMatchHere_not_d p 'n' _ (by decide)
  rw [List.suffix_cons_iff] at ht
  rcases ht with rfl | ht
  · exact dirMatchHere_not_d p 't' _ (by decide)
  rw [List.suffix_cons_iff] at ht
  rcases ht with rfl | ht
  · exact dirMatchHere_not_d p ' ' _ (by decide)
  rw [List.suffix_cons_iff] at ht
  rcases ht with rfl | ht
  · exact dirMatchHere_not_d p '(' _ (by decide)
  rw [List.suffix_cons_iff] at ht
  rcases ht with rfl | ht
  · exact dirMatchHere_not_d p 'U' _ (by decide)
  rw [List.suffix_cons_iff] at ht
  rcases ht with rfl | ht
  · exact dirMatchHere_not_d p 'E' _ (by decide)
  rw [List.suffix_cons_iff] at ht
  rcases ht with rfl | ht
  · exact dirMatchHere_not_d p ')' _ (by decide)
  rw [List.suffix_cons_iff] at ht
  rcases ht with rfl | ht
  · exact dirMatchHere_not_d p ' ' _ (by decide)
  rw [List.suffix_cons_iff] at ht
  rcases ht with rfl | ht
  · exact dirMatchHere_not_d p 'n' _ (by decide)
  rw [List.suffix_cons_iff] at ht
  rcases ht with rfl | ht
  · exact dirMatchHere_not_d p '°' _ (by decide)
  rw [List.suffix_cons_iff] at ht
  rcases ht with rfl | ht
  · exact dirMatchHere_not_d p ' ' _ (by decide)
  rcases suffix_append_cases t N _ ht with ht2 | ⟨s, hs, hsne, rfl⟩
  · rw [List.suffix_cons_iff] at ht2
    rcases ht2 with rfl | ht2
    · exact dirMatchHere_not_d p '/' _ (by decide)
    cases hx : t with
    | nil => exact dirMatchHere_nil p
    | cons c s4 =>
      subst hx
      have hc : isDigitChar c = true :=
        List.all_eq_true.mp hY c (ht2.subset (List.mem_cons_self c s4))
      exact dirMatchHere_not_d p c _ (ciEq_digit_false c 'd' hc (by decide))
  · obtain ⟨c, s2, rfl⟩ := List.exists_cons_of_ne_nil hsne
    have hc : isDigitChar c = true :=
      List.all_eq_true.mp hN c (hs.subset (List.mem_cons_self c s2))
    exact dirMatchHere_not_d p c _ (ciEq_digit_false c 'd' hc (by decide))
theorem digit_not_space (c : Char) (h : isDigitChar c = true) : jsIsSpace c = false := by
  cases hjs : jsIsSpace c with
  | false => rfl
  | true =>
    rcases jsIsSpace_cases c hjs with h1|h1|h1|h1|h1|h1|h1|h1|h1|h1 <;>
      (subst h1; exact absurd h (by decide))

theorem takeWhile_append_stop (q : Char → Bool) (D X : List Char) (c : Char)
    (hD : D.all q = true) (hc : q c = false) :
    (D ++ c :: X).takeWhile q = D := by
  induction D with
  | nil =>
    rw [List.nil_append, List.takeWhile_cons, hc]
    simp
  | cons d D2 ih =>
    simp only [List.all_cons, Bool.and_eq_true] at hD
    rw [List.cons_append, List.takeWhile_cons, if_pos hD.1, ih hD.2]

theorem digitGroup_exact (lo hi : Nat) (D X : List Char) (c : Char)
    (hD : D.all isDigitChar = true) (hc : isDigitChar c = false)
    (hlo : lo ≤ D.length) (hhi : D.length ≤ hi) :
    digitGroup lo hi (D ++ c :: X) = some (D, c :: X) := by
  have h1 : (D ++ c :: X).takeWhile isDigitChar = D := takeWhile_append_stop _ _ _ _ hD hc
  have hcond : (decide (lo ≤ D.length) && decide (D.length ≤ hi)) = true := by
    rw [decide_eq_true hlo, decide_eq_true hhi]
    rfl
  simp [digitGroup, h1, hcond, List.drop_left]

theorem digitGroup_end (lo hi : Nat) (D : List Char)
    (hD : D.all isDigitChar = true) (hlo : lo ≤ D.length) (hhi : D.length ≤ hi) :
    digitGroup lo hi D = some (D, []) := by
  have h1 : D.takeWhile isDigitChar = D := takeWhile_all_eq_self _ _ hD
  have hcond : (decide (lo ≤ D.length) && decide (D.length ≤ hi)) = true := by
    rw [decide_eq_true hlo, decide_eq_true hhi]
    rfl
  simp [digitGroup, h1, hcond, List.drop_length]

theorem dirGap_one_space (D X : List Char) (d0 : Char) (D2 : List Char) (hD0 : D = d0 :: D2)
    (hd : isDigitChar d0 = true) :
    dirGap (' ' :: (D ++ X)) = some (D ++ X) := by
  subst hD0
  have hrun : (' ' :: d0 :: (D2 ++ X)).takeWhile (fun ch => !isDigitChar ch) = [' '] := by
    rw [List.takeWhile_cons, if_pos (by decide), List.takeWhile_cons,
      if_neg (by rw [hd]; decide)]
  simp [dirGap, hrun]

theorem dirMatchHere_canonical (D N : List Char)
    (hD : D.all isDigitChar = true) (hDl2 : 2 ≤ D.length) (hDl4 : D.length ≤ 4)
    (hN : N.all isDigitChar = true) (hNl1 : 1 ≤ N.length) (hNl4 : N.length ≤ 4) :
    dirMatchHere none
      ('d' :: 'i' :: 'r' :: 'e' :: 'c' :: 't' :: 'i' :: 'v' :: 'e' :: ' ' ::
        (D ++ '/' :: (N ++ ['/', 'U', 'E']))) =
    some (⟨D, N, ['U', 'E'],
        'd' :: 'i' :: 'r' :: 'e' :: 'c' :: 't' :: 'i' :: 'v' :: 'e' :: ' ' ::
          (D ++ '/' :: (N ++ ['/', 'U', 'E']))⟩,
      ('d' :: 'i' :: 'r' :: 'e' :: 'c' :: 't' :: 'i' :: 'v' :: 'e' :: ' ' ::
        (D ++ '/' :: (N ++ ['/', 'U', 'E']))).getLast?,
      []) := by
  obtain ⟨d0, D2, hDc⟩ : ∃ d0 D2, D = d0 :: D2 := by
    cases D with
    | nil => simp at hDl2
    | cons a b => exact ⟨a, b, rfl⟩
  have hd0 : isDigitChar d0 = true := by
    have hD2 := hD
    rw [hDc] at hD2
    simp only [List.all_cons, Bool.and_eq_true] at hD2
    exact hD2.1
  have h1 : ciStrip ['d','i','r','e','c','t','i','v','e']
      ('d' :: 'i' :: 'r' :: 'e' :: 'c' :: 't' :: 'i' :: 'v' :: 'e' :: ' ' ::
        (D ++ '/' :: (N ++ ['/', 'U', 'E']))) =
      some (' ' :: (D ++ '/' :: (N ++ ['/', 'U', 'E']))) := rfl
  have h2 : dirGap (' ' :: (D ++ '/' :: (N ++ ['/', 'U', 'E']))) =
      some (D ++ '/' :: (N ++ ['/', 'U', 'E'])) :=
    dirGap_one_space D _ d0 D2 hDc hd0
  have h3 : digitGroup 2 4 (D ++ '/' :: (N ++ ['/', 'U', 'E'])) =
      some (D, '/' :: (N ++ ['/', 'U', 'E'])) :=
    digitGroup_exact 2 4 D _ '/' hD (by decide) hDl2 hDl4
  have h4 : digitGroup 1 4 (N ++ '/' :: ['U', 'E']) = some (N, '/' :: ['U', 'E']) :=
    digitGroup_exact 1 4 N _ '/' hN (by decide) hNl1 hNl4
  have h5 : dirCommLoop euCommunityAlts ['U', 'E'] = some (['U', 'E'], []) := rfl
  have hw2 : wordness (' ' :: (D ++ '/' :: (N ++ ['/', 'U', 'E']))).head? = false := rfl
  have hw1 : wordness (none : Option Char) = false := rfl
  simp only [dirMatchHere, h1, hw1, hw2, Bool.false_eq_true, if_false, h2, h3, h4, h5,
    List.length_nil, Nat.sub_zero, List.take_length]
theorem regGapLoop_down (l : List Char) (k : Nat) (h : regGapAttempt l (k + 1) = none) :
    regGapLoop l (k + 1) = regGapLoop l k := by
  show (match regGapAttempt l (k + 1) with
    | some x => some x
    | none => regGapLoop l k) = _
  rw [h]

theorem regNumTail_canonical (N Y : List Char) (n0 : Char) (N2 : List Char)
    (hN0 : N = n0 :: N2) (hn0 : isDigitChar n0 = true)
    (hN : N.all isDigitChar = true) (hNl1 : 1 ≤ N.length) (hNl4 : N.length ≤ 4)
    (hY : Y.all isDigitChar = true) (hYl2 : 2 ≤ Y.length) (hYl4 : Y.length ≤ 4) :
    regNumTail (' ' :: 'n' :: '°' :: ' ' :: (N ++ '/' :: Y)) = some (N, Y, []) := by
  have hl1 : (' ' :: 'n' :: '°' :: ' ' :: (N ++ '/' :: Y)).dropWhile jsIsSpace =
      'n' :: '°' :: ' ' :: (N ++ '/' :: Y) := by
    rw [List.dropWhile_cons, if_pos (by decide), List.dropWhile_cons, if_neg (by decide)]
  have hstart : (' ' :: (N ++ '/' :: Y)).dropWhile jsIsSpace = N ++ '/' :: Y := by
    rw [List.dropWhile_cons, if_pos (by decide), hN0, List.cons_append, List.dropWhile_cons,
      if_neg (by rw [digit_not_space n0 hn0]; exact Bool.false_ne_true)]
  have hg1 : digitGroup 1 4 (N ++ '/' :: Y) = some (N, '/' :: Y) :=
    digitGroup_exact 1 4 N Y '/' hN (by decide) hNl1 hNl4
  have hg2 : digitGroup 2 4 Y = some (Y, []) := digitGroup_end 2 4 Y hY hYl2 hYl4
  have hw : wordness (([] : List Char)).head? = false := rfl
  have hcn : ciEq 'n' 'n' = true := by decide
  simp [regNumTail, hl1, hstart, hg1, hg2, hw, hcn]
  rfl

theorem regAltTry_UE (N Y : List Char) (n0 : Char) (N2 : List Char)
    (hN0 : N = n0 :: N2) (hn0 : isDigitChar n0 = true)
    (hN : N.all isDigitChar = true) (hNl1 : 1 ≤ N.length) (hNl4 : N.length ≤ 4)
    (hY : Y.all isDigitChar = true) (hYl2 : 2 ≤ Y.length) (hYl4 : Y.length ≤ 4) :
    regAltTry ['U', 'E'] ('U' :: 'E' :: ')' :: ' ' :: 'n' :: '°' :: ' ' :: (N ++ '/' :: Y)) =
      some (['U', 'E'], N, Y, []) := by
  have h1 : ciStrip ['U', 'E'] ('U' :: 'E' :: ')' :: ' ' :: 'n' :: '°' :: ' ' :: (N ++ '/' :: Y)) =
      some (')' :: ' ' :: 'n' :: '°' :: ' ' :: (N ++ '/' :: Y)) := rfl
  simp only [regAltTry, h1,
    regNumTail_canonical N Y n0 N2 hN0 hn0 hN hNl1 hNl4 hY hYl2 hYl4]
  rfl

theorem regCommLoop_UE (N Y : List Char) (n0 : Char) (N2 : List Char)
    (hN0 : N = n0 :: N2) (hn0 : isDigitChar n0 = true)
    (hN : N.all isDigitChar = true) (hNl1 : 1 ≤ N.length) (hNl4 : N.length ≤ 4)
    (hY : Y.all isDigitChar = true) (hYl2 : 2 ≤ Y.length) (hYl4 : Y.length ≤ 4) :
    regCommLoop euCommunityAlts
      ('U' :: 'E' :: ')' :: ' ' :: 'n' :: '°' :: ' ' :: (N ++ '/' :: Y)) =
      some (['U', 'E'], N, Y, []) := by
  show (match regAltTry ['U', 'E']
      ('U' :: 'E' :: ')' :: ' ' :: 'n' :: '°' :: ' ' :: (N ++ '/' :: Y)) with
    | some x => some x
    | none => regCommLoop [['E','U'], ['C','E'], ['C','E','E'], ['E','G'], ['E','E','G'],
        ['E','U','R','A','T','O','M']]
        ('U' :: 'E' :: ')' :: ' ' :: 'n' :: '°' :: ' ' :: (N ++ '/' :: Y))) = _
  rw [regAltTry_UE N Y n0 N2 hN0 hn0 hN hNl1 hNl4 hY hYl2 hYl4]
theorem regGapAttempt_nine (N Y : List Char) (n0 : Char) (N2 : List Char)
    (hN0 : N = n0 :: N2) (hn0 : isDigitChar n0 = true) :
    regGapAttempt
      (' ' :: '(' :: 'U' :: 'E' :: ')' :: ' ' :: 'n' :: '°' :: ' ' :: (N ++ '/' :: Y)) 9 =
      none := by
  unfold regGapAttempt
  rw [show (' ' :: '(' :: 'U' :: 'E' :: ')' :: ' ' :: 'n' :: '°' :: ' ' ::
      (N ++ '/' :: Y)).drop 9 = N ++ '/' :: Y from rfl]
  rw [hN0, List.cons_append]
  split
  next r heq =>
    injection heq with h1 h2
    rw [h1] at hn0
    exact absurd hn0 (by decide)
  next => rfl

theorem regGapLoop_canonical (N Y : List Char) (n0 : Char) (N2 : List Char)
    (hN0 : N = n0 :: N2) (hn0 : isDigitChar n0 = true)
    (hN : N.all isDigitChar = true) (hNl1 : 1 ≤ N.length) (hNl4 : N.length ≤ 4)
    (hY : Y.all isDigitChar = true) (hYl2 : 2 ≤ Y.length) (hYl4 : Y.length ≤ 4) :
    regGapLoop
      (' ' :: '(' :: 'U' :: 'E' :: ')' :: ' ' :: 'n' :: '°' :: ' ' :: (N ++ '/' :: Y)) 9 =
      some (['U', 'E'], N, Y, []) := by
  have hatt1 : regGapAttempt
      (' ' :: '(' :: 'U' :: 'E' :: ')' :: ' ' :: 'n' :: '°' :: ' ' :: (N ++ '/' :: Y)) 1 =
      some (['U', 'E'], N, Y, []) := by
    show regCommLoop euCommunityAlts
      ('U' :: 'E' :: ')' :: ' ' :: 'n' :: '°' :: ' ' :: (N ++ '/' :: Y)) = _
    exact regCommLoop_UE N Y n0 N2 hN0 hn0 hN hNl1 hNl4 hY hYl2 hYl4
  show regGapLoop _ (8 + 1) = _
  rw [regGapLoop_down (' ' :: '(' :: 'U' :: 'E' :: ')' :: ' ' :: 'n' :: '°' :: ' ' :: (N ++ '/' :: Y)) 8 (regGapAttempt_nine N Y n0 N2 hN0 hn0)]
  show regGapLoop _ (7 + 1) = _
  rw [regGapLoop_down (' ' :: '(' :: 'U' :: 'E' :: ')' :: ' ' :: 'n' :: '°' :: ' ' :: (N ++ '/' :: Y)) 7 rfl]
  show regGapLoop _ (6 + 1) = _
  rw [regGapLoop_down (' ' :: '(' :: 'U' :: 'E' :: ')' :: ' ' :: 'n' :: '°' :: ' ' :: (N ++ '/' :: Y)) 6 rfl]
  show regGapLoop _ (5 + 1) = _
  rw [regGapLoop_down (' ' :: '(' :: 'U' :: 'E' :: ')' :: ' ' :: 'n' :: '°' :: ' ' :: (N ++ '/' :: Y)) 5 rfl]
  show regGapLoop _ (4 + 1) = _
  rw [regGapLoop_down (' ' :: '(' :: 'U' :: 'E' :: ')' :: ' ' :: 'n' :: '°' :: ' ' :: (N ++ '/' :: Y)) 4 rfl]
  show regGapLoop _ (3 + 1) = _
  rw [regGapLoop_down (' ' :: '(' :: 'U' :: 'E' :: ')' :: ' ' :: 'n' :: '°' :: ' ' :: (N ++ '/' :: Y)) 3 rfl]
  show regGapLoop _ (2 + 1) = _
  rw [regGapLoop_down (' ' :: '(' :: 'U' :: 'E' :: ')' :: ' ' :: 'n' :: '°' :: ' ' :: (N ++ '/' :: Y)) 2 rfl]
  show regGapLoop _ (1 + 1) = _
  rw [regGapLoop_down (' ' :: '(' :: 'U' :: 'E' :: ')' :: ' ' :: 'n' :: '°' :: ' ' :: (N ++ '/' :: Y)) 1 rfl]
  show (match regGapAttempt
      (' ' :: '(' :: 'U' :: 'E' :: ')' :: ' ' :: 'n' :: '°' :: ' ' :: (N ++ '/' :: Y)) (0 + 1)
      with
    | some x => some x
    | none => regGapLoop
        (' ' :: '(' :: 'U' :: 'E' :: ')' :: ' ' :: 'n' :: '°' :: ' ' :: (N ++ '/' :: Y)) 0) = _
  rw [show regGapAttempt
      (' ' :: '(' :: 'U' :: 'E' :: ')' :: ' ' :: 'n' :: '°' :: ' ' :: (N ++ '/' :: Y)) (0 + 1) =
      some (['U', 'E'], N, Y, []) from hatt1]
theorem regMatchHere_canonical (N Y : List Char) (n0 : Char) (N2 : List Char)
    (hN0 : N = n0 :: N2) (hn0 : isDigitChar n0 = true)
    (hN : N.all isDigitChar = true) (hNl1 : 1 ≤ N.length) (hNl4 : N.length ≤ 4)
    (hY : Y.all isDigitChar = true) (hYl2 : 2 ≤ Y.length) (hYl4 : Y.length ≤ 4) :
    regMatchHere none
      ('r' :: 'è' :: 'g' :: 'l' :: 'e' :: 'm' :: 'e' :: 'n' :: 't' :: ' ' :: '(' ::
        'U' :: 'E' :: ')' :: ' ' :: 'n' :: '°' :: ' ' :: (N ++ '/' :: Y)) =
    some (⟨['U', 'E'], N, Y,
        'r' :: 'è' :: 'g' :: 'l' :: 'e' :: 'm' :: 'e' :: 'n' :: 't' :: ' ' :: '(' ::
          'U' :: 'E' :: ')' :: ' ' :: 'n' :: '°' :: ' ' :: (N ++ '/' :: Y)⟩,
      ('r' :: 'è' :: 'g' :: 'l' :: 'e' :: 'm' :: 'e' :: 'n' :: 't' :: ' ' :: '(' ::
        'U' :: 'E' :: ')' :: ' ' :: 'n' :: '°' :: ' ' :: (N ++ '/' :: Y)).getLast?,
      []) := by
  have hstrip : ciStrip ['g', 'l', 'e', 'm', 'e', 'n', 't']
      ('g' :: 'l' :: 'e' :: 'm' :: 'e' :: 'n' :: 't' :: ' ' :: '(' ::
        'U' :: 'E' :: ')' :: ' ' :: 'n' :: '°' :: ' ' :: (N ++ '/' :: Y)) =
      some (' ' :: '(' :: 'U' :: 'E' :: ')' :: ' ' :: 'n' :: '°' :: ' ' :: (N ++ '/' :: Y)) :=
    rfl
  have htw : (' ' :: '(' :: 'U' :: 'E' :: ')' :: ' ' :: 'n' :: '°' :: ' ' ::
      (N ++ '/' :: Y)).takeWhile (fun ch => !isDigitChar ch) =
      [' ', '(', 'U', 'E', ')', ' ', 'n', '°', ' '] := by
    rw [hN0, List.cons_append]
    rw [List.takeWhile_cons, if_pos (by decide)]
    rw [List.takeWhile_cons, if_pos (by decide)]
    rw [List.takeWhile_cons, if_pos (by decide)]
    rw [List.takeWhile_cons, if_pos (by decide)]
    rw [List.takeWhile_cons, if_pos (by decide)]
    rw [List.takeWhile_cons, if_pos (by decide)]
    rw [List.takeWhile_cons, if_pos (by decide)]
    rw [List.takeWhile_cons, if_pos (by decide)]
    rw [List.takeWhile_cons, if_pos (by decide)]
    rw [List.takeWhile_cons, if_neg (by rw [hn0]; decide)]
  have hloop := regGapLoop_canonical N Y n0 N2 hN0 hn0 hN hNl1 hNl4 hY hYl2 hYl4
  have hr : (!ciEq 'r' 'r') = false := by decide
  have hwn : wordness (none : Option Char) = false := rfl
  have hacc : (ciEq 'è' 'è' || ciEq 'è' 'e') = true := by decide
  have hwr : wordness (' ' :: '(' :: 'U' :: 'E' :: ')' :: ' ' :: 'n' :: '°' :: ' ' ::
      (N ++ '/' :: Y)).head? = false := rfl
  simp only [regMatchHere, hr, hwn, hacc, Bool.false_eq_true, if_false, if_true,
    eq_self_iff_true, hstrip, hwr, htw, List.length_cons, List.length_nil]
  rw [show (48 : Nat) ⊓ (0 + 1 + 1 + 1 + 1 + 1 + 1 + 1 + 1 + 1) = 9 from by norm_num]
  simp only [hloop, List.length_nil, Nat.sub_zero]
  rw [show (N ++ '/' :: Y).length + 1 + 1 + 1 + 1 + 1 + 1 + 1 + 1 + 1 + 1 + 1 + 1 + 1 + 1 +
      1 + 1 + 1 + 1 =
      ('r' :: 'è' :: 'g' :: 'l' :: 'e' :: 'm' :: 'e' :: 'n' :: 't' :: ' ' :: '(' ::
        'U' :: 'E' :: ')' :: ' ' :: 'n' :: '°' :: ' ' :: (N ++ '/' :: Y)).length from by simp]
  rw [List.take_length]
theorem dirRefOfMatch_canonical (year number : Nat) (hy1 : 1957 ≤ year) (hy2 : year ≤ 2100)
    (hn1 : 1 ≤ number) (matched : List Char) :
    dirRefOfMatch ⟨natDigits year, natDigits number, ['U', 'E'], matched⟩ =
      some { eu_document_id :=
               "directive:" ++ jsNumToString year ++ "/" ++ jsNumToString number,
             type := "directive", year := year, number := number,
             community := EUCommunityValue.EU,
             full_citation := normalizeCitation ⟨matched⟩ } := by
  have hC : normalizeCommunity ⟨['U', 'E']⟩ = EUCommunityValue.EU := rfl
  have d1 : ¬(number = 0) := by omega
  unfold dirRefOfMatch
  simp [parseEuYear_natDigits_year year hy1 hy2, jsParseIntNat_natDigits, d1, hC]

theorem regRefOfMatch_canonical (year number : Nat) (hy1 : 1957 ≤ year) (hy2 : year ≤ 2100)
    (hn1 : 1 ≤ number)
    (hpy : parseEuYear ⟨natDigits number⟩ = none) (matched : List Char) :
    regRefOfMatch ⟨['U', 'E'], natDigits number, natDigits year, matched⟩ =
      some { eu_document_id :=
               "regulation:" ++ jsNumToString year ++ "/" ++ jsNumToString number,
             type := "regulation", year := year, number := number,
             community := EUCommunityValue.EU,
             full_citation := normalizeCitation ⟨matched⟩ } := by
  have hC : normalizeCommunity ⟨['U', 'E']⟩ = EUCommunityValue.EU := rfl
  have d1 : ¬(number = 0) := by omega
  have d2 : ¬(year = 0) := by omega
  have hinf : inferRegulationYearAndNumber EUCommunityValue.EU
      ⟨natDigits number⟩ ⟨natDigits year⟩ = some (year, number) := by
    unfold inferRegulationYearAndNumber
    simp [jsParseIntNat_natDigits, d1, d2, hpy, parseEuYear_natDigits_year year hy1 hy2]
  unfold regRefOfMatch
  simp [hC, hinf]
theorem extract_dir_text (year number : Nat) (hy1 : 1957 ≤ year) (hy2 : year ≤ 2100)
    (hn1 : 1 ≤ number) (hn2 : number ≤ 9999) :
    (extractEUReferencesFromText
        ("directive " ++ jsNumToString year ++ "/" ++ jsNumToString number ++ "/UE")).map
      (fun r => r.eu_document_id) =
      ["directive:" ++ jsNumToString year ++ "/" ++ jsNumToString number] := by
  have hDall := natDigits_all year
  have hNall := natDigits_all number
  have hD4 : (natDigits year).length = 4 := natDigits_length_four year (by omega) (by omega)
  have hN1 : 1 ≤ (natDigits number).length := by
    rw [natDigits_length]
    omega
  have hN4 : (natDigits number).length ≤ 4 := natDigits_length_le_four number (by omega)
  have hdata : ("directive " ++ jsNumToString year ++ "/" ++ jsNumToString number ++
      "/UE").data =
      'd' :: 'i' :: 'r' :: 'e' :: 'c' :: 't' :: 'i' :: 'v' :: 'e' :: ' ' ::
        (natDigits year ++ '/' :: (natDigits number ++ ['/', 'U', 'E'])) := by
    simp only [String.data_append]
    show ['d','i','r','e','c','t','i','v','e',' '] ++ natDigits year ++ ['/'] ++
        natDigits number ++ ['/','U','E'] = _
    simp
  have hm := dirMatchHere_canonical (natDigits year) (natDigits number)
    hDall (by omega) (by omega) hNall hN1 hN4
  have hscan1 : euScan dirMatchHere
      (('d' :: 'i' :: 'r' :: 'e' :: 'c' :: 't' :: 'i' :: 'v' :: 'e' :: ' ' ::
        (natDigits year ++ '/' :: (natDigits number ++ ['/', 'U', 'E']))).length + 1) none
      ('d' :: 'i' :: 'r' :: 'e' :: 'c' :: 't' :: 'i' :: 'v' :: 'e' :: ' ' ::
        (natDigits year ++ '/' :: (natDigits number ++ ['/', 'U', 'E']))) =
      [⟨natDigits year, natDigits number, ['U', 'E'],
        'd' :: 'i' :: 'r' :: 'e' :: 'c' :: 't' :: 'i' :: 'v' :: 'e' :: ' ' ::
          (natDigits year ++ '/' :: (natDigits number ++ ['/', 'U', 'E']))⟩] := by
    rw [euScan_cons_some dirMatchHere _ none 'd' _ _ _ _ hm, euScan_nil]
  have hscan2 : euScan regMatchHere
      (('d' :: 'i' :: 'r' :: 'e' :: 'c' :: 't' :: 'i' :: 'v' :: 'e' :: ' ' ::
        (natDigits year ++ '/' :: (natDigits number ++ ['/', 'U', 'E']))).length + 1) none
      ('d' :: 'i' :: 'r' :: 'e' :: 'c' :: 't' :: 'i' :: 'v' :: 'e' :: ' ' ::
        (natDigits year ++ '/' :: (natDigits number ++ ['/', 'U', 'E']))) = [] :=
    euScan_none_all _ _ _ _
      (reg_fail_dir_text (natDigits year) (natDigits number) hDall hNall)
  unfold extractEUReferencesFromText
  rw [hdata]
  simp only [hscan1, hscan2]
  simp [dirRefOfMatch_canonical year number hy1 hy2 hn1, dedupeEuRefsAux]

theorem extract_reg_text (year number : Nat) (hy1 : 1957 ≤ year) (hy2 : year ≤ 2100)
    (hn1 : 1 ≤ number) (hn2 : number ≤ 9999)
    (hpy : parseEuYear ⟨natDigits number⟩ = none) :
    (extractEUReferencesFromText
        ("règlement (UE) n° " ++ jsNumToString number ++ "/" ++ jsNumToString year)).map
      (fun r => r.eu_document_id) =
      ["regulation:" ++ jsNumToString year ++ "/" ++ jsNumToString number] := by
  have hYall := natDigits_all year
  have hNall := natDigits_all number
  have hY4 : (natDigits year).length = 4 := natDigits_length_four year (by omega) (by omega)
  have hN1 : 1 ≤ (natDigits number).length := by
    rw [natDigits_length]
    omega
  have hN4 : (natDigits number).length ≤ 4 := natDigits_length_le_four number (by omega)
  obtain ⟨n0, N2, hN0⟩ : ∃ n0 N2, natDigits number = n0 :: N2 := by
    cases hx : natDigits number with
    | nil => exact absurd hx (natDigits_ne_nil number)
    | cons a b => exact ⟨a, b, rfl⟩
  have hn0 : isDigitChar n0 = true := by
    have h2 := hNall
    rw [hN0] at h2
    simp only [List.all_cons, Bool.and_eq_true] at h2
    exact h2.1
  have hdata : ("règlement (UE) n° " ++ jsNumToString number ++ "/" ++
      jsNumToString year).data =
      'r' :: 'è' :: 'g' :: 'l' :: 'e' :: 'm' :: 'e' :: 'n' :: 't' :: ' ' :: '(' ::
        'U' :: 'E' :: ')' :: ' ' :: 'n' :: '°' :: ' ' ::
        (natDigits number ++ '/' :: natDigits year) := by
    simp only [String.data_append]
    show ['r','è','g','l','e','m','e','n','t',' ','(','U','E',')',' ','n','°',' '] ++
        natDigits number ++ ['/'] ++ natDigits year = _
    simp
  have hm := regMatchHere_canonical (natDigits number) (natDigits year) n0 N2 hN0 hn0
    hNall hN1 hN4 hYall (by omega) (by omega)
  have hscan1 : euScan regMatchHere
      (('r' :: 'è' :: 'g' :: 'l' :: 'e' :: 'm' :: 'e' :: 'n' :: 't' :: ' ' :: '(' ::
        'U' :: 'E' :: ')' :: ' ' :: 'n' :: '°' :: ' ' ::
        (natDigits number ++ '/' :: natDigits year)).length + 1) none
      ('r' :: 'è' :: 'g' :: 'l' :: 'e' :: 'm' :: 'e' :: 'n' :: 't' :: ' ' :: '(' ::
        'U' :: 'E' :: ')' :: ' ' :: 'n' :: '°' :: ' ' ::
        (natDigits number ++ '/' :: natDigits year)) =
      [⟨['U', 'E'], natDigits number, natDigits year,
        'r' :: 'è' :: 'g' :: 'l' :: 'e' :: 'm' :: 'e' :: 'n' :: 't' :: ' ' :: '(' ::
          'U' :: 'E' :: ')' :: ' ' :: 'n' :: '°' :: ' ' ::
          (natDigits number ++ '/' :: natDigits year)⟩] := by
    rw [euScan_cons_some regMatchHere _ none 'r' _ _ _ _ hm, euScan_nil]
  have hscan2 : euScan dirMatchHere
      (('r' :: 'è' :: 'g' :: 'l' :: 'e' :: 'm' :: 'e' :: 'n' :: 't' :: ' ' :: '(' ::
        'U' :: 'E' :: ')' :: ' ' :: 'n' :: '°' :: ' ' ::
        (natDigits number ++ '/' :: natDigits year)).length + 1) none
      ('r' :: 'è' :: 'g' :: 'l' :: 'e' :: 'm' :: 'e' :: 'n' :: 't' :: ' ' :: '(' ::
        'U' :: 'E' :: ')' :: ' ' :: 'n' :: '°' :: ' ' ::
        (natDigits number ++ '/' :: natDigits year)) = [] :=
    euScan_none_all _ _ _ _
      (dir_fail_reg_text (natDigits number) (natDigits year) hNall hYall)
  unfold extractEUReferencesFromText
  rw [hdata]
  simp only [hscan1, hscan2]
  simp [regRefOfMatch_canonical year number hy1 hy2 hn1 hpy, dedupeEuRefsAux]
/-- C3. For type directive, every year in [1957, 2100] and positive number of at
most four digits round-trips: extracting from "directive {year}/{number}/UE"
yields exactly the id "directive:{year}/{number}".  For type regulation the
round-trip through "règlement (UE) n° {number}/{year}" holds under the proviso
that the number token does not itself parse as a plausible year (otherwise
inferRegulationYearAndNumber prefers the first token as the year, as the
counterexample shows). -/
theorem eu_roundtrip_amended (year number : Nat) (hy1 : 1957 ≤ year) (hy2 : year ≤ 2100)
    (hn1 : 1 ≤ number) (hn2 : number ≤ 9999) :
    ((extractEUReferencesFromText
        ("directive " ++ jsNumToString year ++ "/" ++ jsNumToString number ++ "/UE")).map
      (fun r => r.eu_document_id) =
      ["directive:" ++ jsNumToString year ++ "/" ++ jsNumToString number]) ∧
    (parseEuYear (jsNumToString number) = none →
      (extractEUReferencesFromText
        ("règlement (UE) n° " ++ jsNumToString number ++ "/" ++ jsNumToString year)).map
        (fun r => r.eu_document_id) =
      ["regulation:" ++ jsNumToString year ++ "/" ++ jsNumToString number]) := by
  constructor
  · exact extract_dir_text year number hy1 hy2 hn1 hn2
  · intro hpy
    exact extract_reg_text year number hy1 hy2 hn1 hn2 hpy

/-- Witness: the GDPR pair (2016, 679) round-trips in both directions. -/
theorem eu_roundtrip_amended_witness :
    (extractEUReferencesFromText "directive 2016/679/UE").map
      (fun r => r.eu_document_id) = ["directive:2016/679"] ∧
    (extractEUReferencesFromText "règlement (UE) n° 679/2016").map
      (fun r => r.eu_document_id) = ["regulation:2016/679"] := by
  have h := eu_roundtrip_amended 2016 679 (by norm_num) (by norm_num) (by norm_num)
    (by norm_num)
  obtain ⟨h1, h2⟩ := h
  have h2x := h2 (by decide)
  rw [show ("directive " ++ jsNumToString 2016 ++ "/" ++ jsNumToString 679 ++ "/UE") =
      "directive 2016/679/UE" from by decide] at h1
  rw [show ("directive:" ++ jsNumToString 2016 ++ "/" ++ jsNumToString 679) =
      "directive:2016/679" from by decide] at h1
  rw [show ("règlement (UE) n° " ++ jsNumToString 679 ++ "/" ++ jsNumToString 2016) =
      "règlement (UE) n° 679/2016" from by decide] at h2x
  rw [show ("regulation:" ++ jsNumToString 2016 ++ "/" ++ jsNumToString 679) =
      "regulation:2016/679" from by decide] at h2x
  exact ⟨h1, h2x⟩
